import Mathlib

/-!
Verification of the customer data-quality pipeline
(`submissions/clean_customers.py`) and its declarative schema validator
(`submissions/customer_schema.py`).

Tables are modelled as ordered lists of rows; a row is an association list
from column name to cell value.  A cell is null (pandas NaN), a string, or a
number (pandas numerics are modelled as rationals).  Library calls
(`str.strip`, `pd.to_numeric`, `pd.to_datetime`, `drop_duplicates`) are
modelled by executable Lean functions whose behaviour on the value forms the
pipeline actually meets mirrors the pandas semantics.
-/

/-- One cell of a table: pandas NaN, a string, or a numeric value
(pandas int64/float64 numerics modelled as rationals). -/
inductive Cell where
  | null : Cell
  | str : String → Cell
  | num : Rat → Cell
deriving DecidableEq, Repr

/-- A row: association list from column name to cell value. -/
abbrev Row := List (String × Cell)

/-- A table: the column header plus the ordered list of rows. -/
structure Table where
  cols : List String
  rows : List Row
deriving DecidableEq, Repr

/-- The report returned by `clean_customer_data` (its two keys). -/
structure CleanReport where
  rows_before : Nat
  rows_after : Nat
deriving DecidableEq, Repr

/-- Cell at a named column (first matching entry); a missing entry reads as
NaN, matching a pandas frame where every row carries every column. -/
def getCell : Row → String → Cell
  | [], _ => .null
  | p :: rest, c => if p.1 = c then p.2 else getCell rest c

/-- Whether the row carries an entry for the column. -/
def hasCol (c : String) (r : Row) : Bool :=
  r.any (fun p => p.1 == c)

/-- Rewrite the cell(s) of a named column, models `df[c] = f(df[c])`. -/
def setCell (c : String) (f : Cell → Cell) (r : Row) : Row :=
  r.map (fun p => if p.1 = c then (p.1, f p.2) else p)

/-- Whitespace characters stripped by Python's `str.strip()` (the ASCII
whitespace forms occurring in textual CSV data). -/
def isSpaceChar (c : Char) : Bool :=
  c == ' ' || c == '\t' || c == '\n' || c == '\r'

/-- Drop trailing characters satisfying `p`. -/
def rstripL (p : Char → Bool) (l : List Char) : List Char :=
  l.foldr (fun c acc => if acc.isEmpty && p c then [] else c :: acc) []

/-- Python `str.strip()`: drop leading and trailing whitespace. -/
def pyStrip (s : String) : String :=
  String.mk (rstripL isSpaceChar (s.toList.dropWhile isSpaceChar))

/-- Python `str(...)` as applied by `.astype(str)`: NaN renders as the
literal text "nan"; numerics render in decimal. -/
def pyStr : Cell → String
  | .null => "nan"
  | .str s => s
  | .num q => if q.den == 1 then toString q.num ++ ".0" else toString q

/-- Split a character list on a separator character. -/
def splitChar (sep : Char) (l : List Char) : List (List Char) :=
  l.foldr (fun c acc =>
    match acc with
    | [] => [[c]]
    | cur :: rest => if c == sep then [] :: cur :: rest else (c :: cur) :: rest)
    [[]]

/-- Numeric value of a digit string. -/
def digitsVal (l : List Char) : Nat :=
  l.foldl (fun n c => 10 * n + (c.toNat - 48)) 0

/-- Nonempty and all decimal digits. -/
def allDigits (l : List Char) : Bool :=
  !l.isEmpty && l.all Char.isDigit

/-- Unsigned decimal numeral, with an optional single decimal point
(`"25"`, `"25.5"`, `"25."`, `".5"`), as accepted by `pd.to_numeric`. -/
def parseUnsigned (l : List Char) : Option Rat :=
  match splitChar '.' l with
  | [a] => if allDigits a then some ((digitsVal a : Nat) : Rat) else none
  | [a, b] =>
      if a.all Char.isDigit && b.all Char.isDigit && (!a.isEmpty || !b.isEmpty) then
        some ((digitsVal a : Rat) + (digitsVal b : Rat) / ((10 : Rat) ^ b.length))
      else none
  | _ => none

/-- Signed decimal numeral. -/
def parseNumeric (l : List Char) : Option Rat :=
  match l with
  | '-' :: rest => (parseUnsigned rest).map Neg.neg
  | '+' :: rest => parseUnsigned rest
  | _ => parseUnsigned l

/-- Model of `pd.to_numeric(value, errors="coerce")`: numbers pass through,
strings are parsed as decimal numerals (unparseable becomes NaN), NaN stays
NaN. -/
def toNumeric (v : Cell) : Cell :=
  match v with
  | .null => .null
  | .num q => .num q
  | .str s =>
      match parseNumeric (pyStrip s).toList with
      | some q => .num q
      | none => .null

/-- Gregorian leap year. -/
def isLeap (y : Nat) : Bool :=
  (y % 4 == 0 && y % 100 != 0) || (y % 400 == 0)

/-- Days in a month of the Gregorian calendar. -/
def daysInMonth (y m : Nat) : Nat :=
  if m == 2 then (if isLeap y then 29 else 28)
  else if m == 4 || m == 6 || m == 9 || m == 11 then 30
  else 31

/-- The three fields form a real calendar date. -/
def validDate (y m d : Nat) : Bool :=
  1 ≤ m && m ≤ 12 && 1 ≤ d && d ≤ daysInMonth y m

/-- Year/month/day field shapes: 4-digit year, 1-2 digit month and day,
denoting a real calendar date. -/
def dateFieldsOk (ys ms ds : List Char) : Bool :=
  allDigits ys && ys.length == 4 && allDigits ms && ms.length ≤ 2 &&
    allDigits ds && ds.length ≤ 2 &&
    validDate (digitsVal ys) (digitsVal ms) (digitsVal ds)

/-- Model of the date forms `pd.to_datetime` accepts on this data:
year-month-day separated by dashes or by slashes, as a real calendar date.
(The pandas parser accepts further formats still; the model keeps the ones
exercised here, dash-separated ISO dates and slash-separated dates.) -/
def parseDateFields (l : List Char) : Option (Nat × Nat × Nat) :=
  match splitChar '-' l with
  | [ys, ms, ds] =>
      if dateFieldsOk ys ms ds then some (digitsVal ys, digitsVal ms, digitsVal ds) else none
  | _ =>
      match splitChar '/' l with
      | [ys, ms, ds] =>
          if dateFieldsOk ys ms ds then some (digitsVal ys, digitsVal ms, digitsVal ds) else none
      | _ => none

/-- Model of `pd.to_datetime(value, errors="coerce").notna()`: NaN coerces
to NaT; strings parse as calendar dates; numeric values are interpreted as
epoch timestamps and hence parse. -/
def dateParsesB (v : Cell) : Bool :=
  match v with
  | .null => false
  | .num _ => true
  | .str s => (parseDateFields (pyStrip s).toList).isSome

/-- Model of `s.contains("@")` over `astype(str)` output. -/
def hasAtB (v : Cell) : Bool :=
  (pyStr v).toList.any (fun c => c == '@')

/-- Source line 12: `df["full_name"].isna() | (df["full_name"].astype(str).str.strip() == "")`. -/
def missingNameB (v : Cell) : Bool :=
  v == Cell.null || pyStrip (pyStr v) == ""

/-- Source line 23: age row passes when the coerced age `.isna()` or lies in
`[0, 120]`; a raw string never reaches this check (the column was coerced),
and would fail the numeric comparisons. -/
def agePassB (v : Cell) : Bool :=
  match v with
  | .null => true
  | .num q => decide ((0 : Rat) ≤ q) && decide (q ≤ (120 : Rat))
  | .str _ => false

/-- Source line 27: `email_filled`, the email is non-null and non-blank. -/
def emailFilledB (v : Cell) : Bool :=
  !(v == Cell.null) && !(pyStrip (pyStr v) == "")

/-- Source line 29: a row is dropped when its email is filled but has no "@". -/
def emailBadB (v : Cell) : Bool :=
  emailFilledB v && !hasAtB v

/-- Source line 13: drop rows whose `full_name` is NaN or blank. -/
def nameFilterRows (rows : List Row) : List Row :=
  rows.filter (fun r => !missingNameB (getCell r "full_name"))

/-- Source lines 17/19: `df[c] = df[c].astype(str).str.strip()`. -/
def stripRows (c : String) (rows : List Row) : List Row :=
  rows.map (setCell c (fun v => .str (pyStrip (pyStr v))))

/-- Source lines 22-23: coerce the age column to numeric, then keep rows
whose age is NaN or within `[0, 120]`. -/
def ageRows (rows : List Row) : List Row :=
  (rows.map (setCell "age" toNumeric)).filter (fun r => agePassB (getCell r "age"))

/-- Source lines 27-29: drop rows with a filled email lacking "@". -/
def emailFilterRows (rows : List Row) : List Row :=
  rows.filter (fun r => !emailBadB (getCell r "email_address"))

/-- Source line 33: `df.drop_duplicates(subset=["email_address"], keep="first")`.
A row is kept when its email value has not occurred before; pandas treats
NaN keys as equal to each other, which `Cell.null = Cell.null` mirrors. -/
def dedupRows (seen : List Cell) : List Row → List Row
  | [] => []
  | r :: rs =>
      if getCell r "email_address" ∈ seen then dedupRows seen rs
      else r :: dedupRows (getCell r "email_address" :: seen) rs

/-- Source lines 37-39: keep rows whose `date_joined` parses as a date. -/
def dateFilterRows (rows : List Row) : List Row :=
  rows.filter (fun r => dateParsesB (getCell r "date_joined"))

/-- Source line 16: `if "full_name" in df.columns:` guard around the strip. -/
def nameStripStage (cols : List String) (rows : List Row) : List Row :=
  if "full_name" ∈ cols then stripRows "full_name" rows else rows

/-- Source line 18: `if "location" in df.columns:` guard around the strip. -/
def locStripStage (cols : List String) (rows : List Row) : List Row :=
  if "location" ∈ cols then stripRows "location" rows else rows

/-- Source line 21: `if "age" in df.columns:` guard around the age rule. -/
def ageStage (cols : List String) (rows : List Row) : List Row :=
  if "age" ∈ cols then ageRows rows else rows

/-- Source line 26: `if "email_address" in df.columns:` guard around the
email-format rule. -/
def emailStage (cols : List String) (rows : List Row) : List Row :=
  if "email_address" ∈ cols then emailFilterRows rows else rows

/-- Source line 32: `if "email_address" in df.columns:` guard around the
dedup rule. -/
def dedupStage (cols : List String) (rows : List Row) : List Row :=
  if "email_address" ∈ cols then dedupRows [] rows else rows

/-- Source line 36: `if "date_joined" in df.columns:` guard around the
date rule. -/
def dateStage (cols : List String) (rows : List Row) : List Row :=
  if "date_joined" ∈ cols then dateFilterRows rows else rows

/-- The six cleaning stages of `clean_customer_data` in source order
(lines 11-39).  Stages 2-6 are guarded by column presence exactly as the
source's `if col in df.columns` guards; stage 1 is deliberately unguarded,
as in the source. -/
def pipelineRows (cols : List String) (rows : List Row) : List Row :=
  dateStage cols (dedupStage cols (emailStage cols (ageStage cols
    (locStripStage cols (nameStripStage cols (nameFilterRows rows))))))

/-- `clean_customer_data` (source lines 6-47), at the table level: the
read/write of the CSV pair is the identity on the table model.  Line 12
indexes `df["full_name"]` without a presence guard, so a table lacking the
`full_name` column raises `KeyError`, modelled as `none`. -/
def clean_customer_data (t : Table) : Option (Table × CleanReport) :=
  if "full_name" ∈ t.cols then
    some ({ cols := t.cols, rows := pipelineRows t.cols t.rows },
          { rows_before := t.rows.length,
            rows_after := (pipelineRows t.cols t.rows).length })
  else
    none

/-- Every row carries exactly the header's columns, in header order —
always true of a pandas frame read from a CSV. -/
def WellFormedB (t : Table) : Bool :=
  t.rows.all (fun r => r.map Prod.fst == t.cols)

/-! ## Schema validator (`submissions/customer_schema.py`) -/

/-- The failure raised by `customer_schema.validate`, carrying the failing
column's name. -/
structure SchemaViolation where
  column : String
deriving DecidableEq, Repr

/-- Pandera column dtype as declared in the schema (`str` or `int`). -/
inductive PaType where
  | pstr : PaType
  | pint : PaType
deriving DecidableEq, Repr

/-- One pandera `Column` declaration: name, dtype, value check,
nullability. -/
structure PaColumn where
  cname : String
  ptype : PaType
  pcheck : Cell → Bool
  nullable : Bool

/-- Value-level dtype conformance: `str` columns hold strings, `int`
columns hold integer numerics. -/
def typeOkB : PaType → Cell → Bool
  | .pstr, .str _ => true
  | .pint, .num q => q.den == 1
  | _, _ => false

/-- A cell passes a column declaration: nulls pass iff the column is
nullable; non-null values must match the dtype and the check. -/
def cellPassesB (sc : PaColumn) (v : Cell) : Bool :=
  match v with
  | .null => sc.nullable
  | v => typeOkB sc.ptype v && sc.pcheck v

/-- Trivial check (a bare `Column(str)`). -/
def checkTrue : Cell → Bool := fun _ => true

/-- `Check.str_contains("@")` (schema line 7). -/
def checkContainsAt : Cell → Bool
  | .str s => s.toList.any (fun c => c == '@')
  | _ => false

/-- `Check.in_range(0, 120)` (schema line 8). -/
def checkAgeRange : Cell → Bool
  | .num q => decide ((0 : Rat) ≤ q) && decide (q ≤ (120 : Rat))
  | _ => false

/-- `Check.isin(["M", "F", "Other"])` (schema line 9). -/
def checkGender : Cell → Bool
  | .str s => s == "M" || s == "F" || s == "Other"
  | _ => false

/-- The regex `^\d{4}-\d{2}-\d{2}$` of schema line 13. -/
def matchesDatePattern (s : String) : Bool :=
  match s.toList with
  | [a, b, c, d, e, f, g, h, i, j] =>
      a.isDigit && b.isDigit && c.isDigit && d.isDigit && e == '-' &&
        f.isDigit && g.isDigit && h == '-' && i.isDigit && j.isDigit
  | _ => false

/-- `Check.str_matches(r"^\d{4}-\d{2}-\d{2}$")` applied to a cell. -/
def checkDatePattern : Cell → Bool
  | .str s => matchesDatePattern s
  | _ => false

/-- Schema line 5: `"full_name": Column(str, nullable=True)`. -/
def fullNameCol : PaColumn := ⟨"full_name", .pstr, checkTrue, true⟩
/-- Schema line 7. -/
def emailCol : PaColumn := ⟨"email_address", .pstr, checkContainsAt, true⟩
/-- Schema line 8. -/
def ageCol : PaColumn := ⟨"age", .pint, checkAgeRange, true⟩
/-- Schema line 9. -/
def genderCol : PaColumn := ⟨"gender", .pstr, checkGender, true⟩
/-- Schema line 10. -/
def phoneCol : PaColumn := ⟨"phone_number", .pstr, checkTrue, true⟩
/-- Schema line 11. -/
def locationCol : PaColumn := ⟨"location", .pstr, checkTrue, false⟩
/-- Schema line 12. -/
def countryCol : PaColumn := ⟨"country", .pstr, checkTrue, false⟩
/-- Schema line 13. -/
def dateJoinedCol : PaColumn := ⟨"date_joined", .pstr, checkDatePattern, false⟩
/-- Schema line 14. -/
def leadSourceCol : PaColumn := ⟨"lead_source", .pstr, checkTrue, false⟩
/-- Schema line 15. -/
def utmCampaignCol : PaColumn := ⟨"utm_campaign", .pstr, checkTrue, true⟩
/-- Schema line 16. -/
def utmMediumCol : PaColumn := ⟨"utm_medium", .pstr, checkTrue, true⟩
/-- Schema line 17. -/
def notesCol : PaColumn := ⟨"notes", .pstr, checkTrue, true⟩
/-- Schema line 18. -/
def isSubscribedCol : PaColumn := ⟨"is_subscribed", .pstr, checkTrue, false⟩

/-- `customer_schema` (schema lines 4-20), in declaration order. -/
def customer_schema : List PaColumn :=
  [fullNameCol, emailCol, ageCol, genderCol, phoneCol, locationCol,
   countryCol, dateJoinedCol, leadSourceCol, utmCampaignCol, utmMediumCol,
   notesCol, isSubscribedCol]

/-- A table satisfies one column declaration: the column exists and every
row's cell passes it. -/
def colAcceptsB (sc : PaColumn) (t : Table) : Bool :=
  decide (sc.cname ∈ t.cols) && t.rows.all (fun r => cellPassesB sc (getCell r sc.cname))

/-- Pandera's presence phase: every declared column must exist in the
table; the first missing one (in declaration order) is raised, before any
value-level check runs. -/
def checkPresence : List PaColumn → Table → Option SchemaViolation
  | [], _ => none
  | sc :: rest, t =>
      if sc.cname ∈ t.cols then checkPresence rest t else some ⟨sc.cname⟩

/-- Pandera's value phase, run only once every declared column is present:
nullability, dtype and checks of each column in declaration order, raising
the first failing column's name. -/
def checkValues : List PaColumn → Table → Option SchemaViolation
  | [], _ => none
  | sc :: rest, t =>
      if t.rows.all (fun r => cellPassesB sc (getCell r sc.cname)) then
        checkValues rest t
      else some ⟨sc.cname⟩

/-- Validate the declared columns the way `DataFrameSchema.validate` does:
first the presence of every declared column, then the value-level checks
column by column, raising the first failure with that column's name. -/
def validateCols (L : List PaColumn) (t : Table) :
    Except SchemaViolation Table :=
  match checkPresence L t with
  | some v => .error v
  | none =>
      match checkValues L t with
      | some v => .error v
      | none => .ok t

/-- `validate_customers` (schema lines 23-25): validate against
`customer_schema`, returning the table unchanged or raising a violation. -/
def validate_customers (t : Table) : Except SchemaViolation Table :=
  validateCols customer_schema t

/-- Every entry of column `c` holds a string equal to its own stripped
form. -/
def trimmedPairsB (c : String) (r : Row) : Bool :=
  r.all (fun p => p.1 != c ||
    (match p.2 with
     | Cell.str s => pyStrip s == s
     | _ => false))

/-- Every entry of column `c` holds a non-string cell (the image of
`pd.to_numeric`). -/
def numericPairsB (c : String) (r : Row) : Bool :=
  r.all (fun p => p.1 != c ||
    (match p.2 with
     | Cell.str _ => false
     | _ => true))

/-- The output of the `full_name` filter-and-strip: a trimmed, nonempty
name string. -/
def nameOkB (r : Row) : Bool :=
  match getCell r "full_name" with
  | Cell.str s => pyStrip s == s && !(s == "")
  | _ => false

/-- The email value of a row, the dedup key of source line 33. -/
def emailOf (r : Row) : Cell :=
  getCell r "email_address"

/-- The value rewriting the pipeline applies to a surviving row: strip the
name, strip the location (when the column is present), coerce the age. -/
def transformRow (cols : List String) (r : Row) : Row :=
  let a := if "full_name" ∈ cols then
    setCell "full_name" (fun v => .str (pyStrip (pyStr v))) r else r
  let b := if "location" ∈ cols then
    setCell "location" (fun v => .str (pyStrip (pyStr v))) a else a
  if "age" ∈ cols then setCell "age" toNumeric b else b

/-- The thirteen schema column names in declaration order. -/
def schemaCols : List String :=
  ["full_name", "email_address", "age", "gender", "phone_number", "location",
   "country", "date_joined", "lead_source", "utm_campaign", "utm_medium",
   "notes", "is_subscribed"]

/-- A schema-conforming row with the given name and email. -/
def validRow (nm em : String) : Row :=
  [("full_name", Cell.str nm), ("email_address", Cell.str em),
   ("age", Cell.num 30), ("gender", Cell.str "F"),
   ("phone_number", Cell.str "123"), ("location", Cell.str "Pune"),
   ("country", Cell.str "India"), ("date_joined", Cell.str "2024-01-15"),
   ("lead_source", Cell.str "web"), ("utm_campaign", Cell.null),
   ("utm_medium", Cell.null), ("notes", Cell.null),
   ("is_subscribed", Cell.str "yes")]

/-- Two schema-valid rows sharing one email address. -/
def dupEmailTable : Table :=
  { cols := schemaCols,
    rows := [validRow "Asha" "sara@gmail.com",
             validRow "Sara" "sara@gmail.com"] }

/-- One schema-valid, already-clean row. -/
def validSingletonTable : Table :=
  { cols := schemaCols, rows := [validRow "Asha" "sara@gmail.com"] }

/-! Sanity checks of the model on concrete values. -/

example : pyStrip "  Rahul Kumar  " = "Rahul Kumar" := by decide
example : pyStrip "nan" = "nan" := by decide
example : missingNameB Cell.null = true := by decide
example : missingNameB (Cell.str "   ") = true := by decide
example : missingNameB (Cell.str " Bob ") = false := by decide
example : toNumeric (Cell.str "25") = Cell.num 25 := by decide
example : toNumeric (Cell.str "-5") = Cell.num (-5) := by decide
example : toNumeric (Cell.str "abc") = Cell.null := by decide
example : dateParsesB (Cell.str "2024-01-15") = true := by decide
example : dateParsesB (Cell.str "2024/01/15") = true := by decide
example : dateParsesB (Cell.str "2024-13-45") = false := by decide
example : dateParsesB (Cell.str "invalid-date") = false := by decide
example : matchesDatePattern "2024-01-15" = true := by decide
example : matchesDatePattern "2024/01/15" = false := by decide
example : emailBadB (Cell.str "sara.gmail.com") = true := by decide
example : emailBadB (Cell.str "sara@gmail.com") = false := by decide
example : emailBadB Cell.null = false := by decide

/-! ## Helper lemmas: stripping -/

/-- Dropping a satisfied head twice is the same as once. -/
theorem dropWhile_idem (p : Char → Bool) (l : List Char) :
    (l.dropWhile p).dropWhile p = l.dropWhile p := by
  induction l with
  | nil => rfl
  | cons c cs ih =>
      by_cases h : p c
      · simp [List.dropWhile_cons, h, ih]
      · simp [List.dropWhile_cons, h]

/-- Unfolding equation of `rstripL` on a cons. -/
theorem rstripL_cons (p : Char → Bool) (c : Char) (l : List Char) :
    rstripL p (c :: l) =
      if (rstripL p l).isEmpty && p c then [] else c :: rstripL p l := rfl

/-- Dropping trailing matches twice is the same as once. -/
theorem rstripL_idem (p : Char → Bool) (l : List Char) :
    rstripL p (rstripL p l) = rstripL p l := by
  induction l with
  | nil => rfl
  | cons c cs ih =>
      rw [rstripL_cons]
      by_cases h : (rstripL p cs).isEmpty && p c
      · simp [h]
        rfl
      · simp [h]
        rw [rstripL_cons, ih]
        simp [h]

/-- A list already left-stripped stays left-stripped after right-stripping. -/
theorem dropWhile_rstripL (p : Char → Bool) (l : List Char)
    (h : l.dropWhile p = l) : (rstripL p l).dropWhile p = rstripL p l := by
  cases l with
  | nil => rfl
  | cons c cs =>
      have hc : p c = false := by
        by_cases hpc : p c
        · rw [List.dropWhile_cons, if_pos hpc] at h
          have hle : (cs.dropWhile p).length ≤ cs.length :=
            (List.dropWhile_sublist p).length_le
          rw [h] at hle
          simp at hle
        · exact Bool.eq_false_iff.mpr hpc
      rw [rstripL_cons]
      by_cases he : ((rstripL p cs).isEmpty && p c) = true
      · simp [he]
      · simp only [he, if_false, Bool.false_eq_true]
        rw [List.dropWhile_cons, hc]
        simp

/-- Characters of a `pyStrip` result. -/
theorem pyStrip_toList (s : String) :
    (pyStrip s).toList = rstripL isSpaceChar (s.toList.dropWhile isSpaceChar) := rfl

/-- Python's `str.strip()` is idempotent. -/
theorem pyStrip_idem (s : String) : pyStrip (pyStrip s) = pyStrip s := by
  have h1 : (pyStrip s).toList.dropWhile isSpaceChar = (pyStrip s).toList := by
    rw [pyStrip_toList]
    exact dropWhile_rstripL isSpaceChar _ (dropWhile_idem isSpaceChar _)
  show String.mk (rstripL isSpaceChar ((pyStrip s).toList.dropWhile isSpaceChar)) = pyStrip s
  rw [h1, pyStrip_toList, rstripL_idem]
  rfl

/-! ## Helper lemmas: cell access and update -/

/-- Updating one column leaves every other column's value unchanged. -/
theorem getCell_setCell_ne (c c' : String) (f : Cell → Cell) (r : Row)
    (h : c ≠ c') : getCell (setCell c f r) c' = getCell r c' := by
  induction r with
  | nil => rfl
  | cons p rest ih =>
      simp only [setCell, List.map_cons] at ih ⊢
      by_cases hp : p.1 = c
      · have hp' : ¬p.1 = c' := fun hq => h (hp ▸ hq)
        rw [if_pos hp]
        show (if p.1 = c' then f p.2 else _) = _
        rw [if_neg hp']
        show _ = getCell (p :: rest) c'
        rw [show getCell (p :: rest) c' = if p.1 = c' then p.2 else getCell rest c' from rfl,
          if_neg hp']
        exact ih
      · rw [if_neg hp]
        show (if p.1 = c' then p.2 else _) = if p.1 = c' then p.2 else getCell rest c'
        by_cases hq : p.1 = c'
        · rw [if_pos hq, if_pos hq]
        · rw [if_neg hq, if_neg hq]
          exact ih

/-- Updating a column present in the row rewrites its read value. -/
theorem getCell_setCell_self (c : String) (f : Cell → Cell) (r : Row)
    (h : hasCol c r = true) : getCell (setCell c f r) c = f (getCell r c) := by
  induction r with
  | nil => simp [hasCol] at h
  | cons p rest ih =>
      simp only [setCell, List.map_cons] at ih ⊢
      by_cases hp : p.1 = c
      · rw [if_pos hp]
        show (if p.1 = c then f p.2 else _) = f (if p.1 = c then p.2 else _)
        rw [if_pos hp, if_pos hp]
      · have h' : hasCol c rest = true := by
          simp only [hasCol, List.any_cons, Bool.or_eq_true, beq_iff_eq] at h
          rcases h with h | h
          · exact absurd h hp
          · simpa [hasCol] using h
        rw [if_neg hp]
        show (if p.1 = c then p.2 else _) = f (if p.1 = c then p.2 else _)
        rw [if_neg hp, if_neg hp]
        exact ih h'

/-- A column with no entry reads as NaN. -/
theorem getCell_of_not_hasCol (c : String) (r : Row)
    (h : hasCol c r = false) : getCell r c = Cell.null := by
  induction r with
  | nil => rfl
  | cons p rest ih =>
      simp only [hasCol, List.any_cons, Bool.or_eq_false_iff, beq_eq_false_iff_ne,
        ne_eq] at h
      have h2 : hasCol c rest = false := by
        simp only [hasCol]
        exact h.2
      show (if p.1 = c then p.2 else getCell rest c) = Cell.null
      rw [if_neg h.1]
      exact ih h2

/-- Updating a column preserves the row's key list. -/
theorem keys_setCell (c : String) (f : Cell → Cell) (r : Row) :
    (setCell c f r).map Prod.fst = r.map Prod.fst := by
  induction r with
  | nil => rfl
  | cons p rest ih =>
      simp only [setCell, List.map_cons] at ih ⊢
      have hfst : (if p.1 = c then (p.1, f p.2) else p).1 = p.1 := by
        split <;> rfl
      rw [hfst, ih]

/-- Updating a column preserves which columns a row carries. -/
theorem hasCol_setCell (c c' : String) (f : Cell → Cell) (r : Row) :
    hasCol c' (setCell c f r) = hasCol c' r := by
  induction r with
  | nil => rfl
  | cons p rest ih =>
      simp only [setCell, List.map_cons, hasCol, List.any_cons] at ih ⊢
      have hfst : (if p.1 = c then (p.1, f p.2) else p).1 = p.1 := by
        split <;> rfl
      rw [hfst, ih]

/-- An update that fixes every entry of the column is the identity. -/
theorem setCell_eq_self (c : String) (f : Cell → Cell) (r : Row)
    (h : ∀ p ∈ r, p.1 = c → f p.2 = p.2) : setCell c f r = r := by
  induction r with
  | nil => rfl
  | cons p rest ih =>
      have hrest : setCell c f rest = rest :=
        ih (fun q hq => h q (List.mem_cons.mpr (Or.inr hq)))
      simp only [setCell, List.map_cons] at hrest ⊢
      by_cases hp : p.1 = c
      · rw [if_pos hp, h p (List.mem_cons.mpr (Or.inl rfl)) hp, Prod.mk.eta, hrest]
      · rw [if_neg hp, hrest]

/-! ## Row invariants established by the pipeline -/

/-- Stripping a column establishes its trimmed-pairs invariant. -/
theorem trimmedPairs_strip (c : String) (r : Row) :
    trimmedPairsB c (setCell c (fun v => .str (pyStrip (pyStr v))) r) = true := by
  rw [trimmedPairsB, List.all_eq_true]
  intro p hp
  rcases List.mem_map.mp hp with ⟨q, _, rfl⟩
  by_cases hq : q.1 = c
  · simp only [if_pos hq]
    simp [pyStrip_idem]
  · simp only [if_neg hq]
    simp [hq]

/-- Updating a different column preserves the trimmed-pairs invariant. -/
theorem trimmedPairs_setCell_ne (c c' : String) (f : Cell → Cell) (r : Row)
    (h : c ≠ c') (hr : trimmedPairsB c r = true) :
    trimmedPairsB c (setCell c' f r) = true := by
  rw [trimmedPairsB, List.all_eq_true]
  rw [trimmedPairsB, List.all_eq_true] at hr
  intro p hp
  rcases List.mem_map.mp hp with ⟨q, hq, rfl⟩
  by_cases hq1 : q.1 = c'
  · rw [if_pos hq1]
    have : ¬(q.1 = c) := fun hcc => h (hcc.symm.trans hq1)
    simp [this]
  · rw [if_neg hq1]
    exact hr q hq

/-- Coercing the column to numeric establishes its numeric-pairs
invariant. -/
theorem numericPairs_set_toNumeric (c : String) (r : Row) :
    numericPairsB c (setCell c toNumeric r) = true := by
  rw [numericPairsB, List.all_eq_true]
  intro p hp
  rcases List.mem_map.mp hp with ⟨q, _, rfl⟩
  by_cases hq : q.1 = c
  · rw [if_pos hq]
    cases hv : q.2 with
    | null => simp [toNumeric]
    | str s =>
        simp only [toNumeric]
        cases parseNumeric (pyStrip s).toList <;> simp
    | num n => simp [toNumeric]
  · rw [if_neg hq]
    simp [hq]

/-- A trimmed column is unchanged by a further strip. -/
theorem setCell_strip_of_trimmed (c : String) (r : Row)
    (h : trimmedPairsB c r = true) :
    setCell c (fun v => .str (pyStrip (pyStr v))) r = r := by
  apply setCell_eq_self
  intro p hp hpc
  rw [trimmedPairsB, List.all_eq_true] at h
  have := h p hp
  rw [Bool.or_eq_true] at this
  rcases this with hne | hval
  · exact absurd hpc (by simpa using hne)
  · cases hv : p.2 with
    | null => rw [hv] at hval; simp at hval
    | num q => rw [hv] at hval; simp at hval
    | str s =>
        rw [hv] at hval
        simp only [beq_iff_eq] at hval
        simp [pyStr, hval]

/-- A numeric-coerced column is unchanged by a further coercion. -/
theorem setCell_toNumeric_of_numeric (c : String) (r : Row)
    (h : numericPairsB c r = true) : setCell c toNumeric r = r := by
  apply setCell_eq_self
  intro p hp hpc
  rw [numericPairsB, List.all_eq_true] at h
  have := h p hp
  rw [Bool.or_eq_true] at this
  rcases this with hne | hval
  · exact absurd hpc (by simpa using hne)
  · cases hv : p.2 with
    | null => simp [toNumeric]
    | num q => simp [toNumeric]
    | str s => rw [hv] at hval; simp at hval

/-- Reading a carried, trimmed column yields a trimmed string. -/
theorem getCell_of_trimmedPairs (c : String) (r : Row)
    (hc : hasCol c r = true) (ht : trimmedPairsB c r = true) :
    ∃ s, getCell r c = Cell.str s ∧ pyStrip s = s := by
  induction r with
  | nil => simp [hasCol] at hc
  | cons p rest ih =>
      rw [trimmedPairsB, List.all_cons, Bool.and_eq_true] at ht
      by_cases hp : p.1 = c
      · have hval := ht.1
        rw [Bool.or_eq_true] at hval
        rcases hval with hne | hval
        · exact absurd hp (by simpa using hne)
        · cases hv : p.2 with
          | null => rw [hv] at hval; simp at hval
          | num q => rw [hv] at hval; simp at hval
          | str s =>
              refine ⟨s, ?_, ?_⟩
              · show (if p.1 = c then p.2 else getCell rest c) = Cell.str s
                rw [if_pos hp, hv]
              · rw [hv] at hval
                simpa using hval
      · have hc' : hasCol c rest = true := by
          simp only [hasCol, List.any_cons, Bool.or_eq_true, beq_iff_eq] at hc
          rcases hc with hc | hc
          · exact absurd hc hp
          · simpa [hasCol] using hc
        have ht' : trimmedPairsB c rest = true := by
          rw [trimmedPairsB]; exact ht.2
        rcases ih hc' ht' with ⟨s, hs1, hs2⟩
        refine ⟨s, ?_, hs2⟩
        show (if p.1 = c then p.2 else getCell rest c) = Cell.str s
        rw [if_neg hp]
        exact hs1

/-! ## Helper lemmas: email dedup -/

/-- The dedup stage yields an order-preserving subsequence of its input. -/
theorem dedupRows_sublist (seen : List Cell) (rows : List Row) :
    (dedupRows seen rows).Sublist rows := by
  induction rows generalizing seen with
  | nil => exact List.Sublist.refl []
  | cons r rs ih =>
      rw [dedupRows]
      by_cases h : getCell r "email_address" ∈ seen
      · rw [if_pos h]
        exact (ih seen).cons r
      · rw [if_neg h]
        exact (ih _).cons₂ r

/-- The dedup stage never grows the table. -/
theorem dedupRows_length_le (seen : List Cell) (rows : List Row) :
    (dedupRows seen rows).length ≤ rows.length :=
  (dedupRows_sublist seen rows).length_le

/-- The dedup stage's output carries pairwise distinct email values, none
of them previously seen. -/
theorem dedupRows_nodup (seen : List Cell) (rows : List Row) :
    ((dedupRows seen rows).map emailOf).Nodup ∧
      ∀ r ∈ dedupRows seen rows, emailOf r ∉ seen := by
  induction rows generalizing seen with
  | nil => exact ⟨List.nodup_nil, fun r hr => absurd hr (List.not_mem_nil r)⟩
  | cons r rs ih =>
      rw [dedupRows]
      by_cases h : getCell r "email_address" ∈ seen
      · rw [if_pos h]
        exact ih seen
      · rw [if_neg h]
        rcases ih (getCell r "email_address" :: seen) with ⟨hnd, hsn⟩
        constructor
        · rw [List.map_cons, List.nodup_cons]
          refine ⟨?_, hnd⟩
          intro hmem
          rcases List.mem_map.mp hmem with ⟨r', hr', hval⟩
          refine (hsn r' hr') ?_
          rw [hval]
          exact List.mem_cons.mpr (Or.inl rfl)
        · intro r' hr'
          rcases List.mem_cons.mp hr' with rfl | hr'
          · exact h
          · exact fun hc => (hsn r' hr') (List.mem_cons.mpr (Or.inr hc))

/-- Deduplicating rows with pairwise distinct, unseen email values is the
identity. -/
theorem dedupRows_eq_self (seen : List Cell) (rows : List Row)
    (hnd : (rows.map emailOf).Nodup)
    (hs : ∀ r ∈ rows, emailOf r ∉ seen) : dedupRows seen rows = rows := by
  induction rows generalizing seen with
  | nil => rfl
  | cons r rs ih =>
      rw [List.map_cons, List.nodup_cons] at hnd
      rw [dedupRows,
        if_neg (by simpa [emailOf] using hs r (List.mem_cons.mpr (Or.inl rfl)))]
      congr 1
      refine ih _ hnd.2 (fun r' hr' => ?_)
      intro hc
      rcases List.mem_cons.mp hc with hc | hc
      · exact hnd.1 (List.mem_map.mpr ⟨r', hr', hc⟩)
      · exact hs r' (List.mem_cons.mpr (Or.inr hr')) hc

/-- If the dedup stage dropped nothing, the input's email values were
pairwise distinct (and none was previously seen). -/
theorem dedupRows_length_eq (seen : List Cell) (rows : List Row)
    (h : (dedupRows seen rows).length = rows.length) :
    (rows.map emailOf).Nodup ∧ ∀ r ∈ rows, emailOf r ∉ seen := by
  induction rows generalizing seen with
  | nil => exact ⟨List.nodup_nil, fun r hr => absurd hr (List.not_mem_nil r)⟩
  | cons r rs ih =>
      rw [dedupRows] at h
      by_cases hm : getCell r "email_address" ∈ seen
      · rw [if_pos hm] at h
        have := dedupRows_length_le seen rs
        rw [h] at this
        simp at this
      · rw [if_neg hm] at h
        simp only [List.length_cons, Nat.add_right_cancel_iff] at h
        rcases ih _ h with ⟨hnd, hsn⟩
        refine ⟨?_, ?_⟩
        · rw [List.map_cons, List.nodup_cons]
          refine ⟨?_, hnd⟩
          intro hmem
          rcases List.mem_map.mp hmem with ⟨r', hr', hval⟩
          exact (hsn r' hr') (hval ▸ List.mem_cons.mpr (Or.inl rfl))
        · intro r' hr'
          rcases List.mem_cons.mp hr' with rfl | hr'
          · exact hm
          · exact fun hc => (hsn r' hr') (List.mem_cons.mpr (Or.inr hc))

/-- Dedup preserves, for every email value not yet seen, the first row
bearing it. -/
theorem dedupRows_find (seen : List Cell) (rows : List Row) (v : Cell)
    (hv : v ∉ seen) :
    (dedupRows seen rows).find? (fun r => emailOf r == v) =
      rows.find? (fun r => emailOf r == v) := by
  induction rows generalizing seen with
  | nil => rfl
  | cons r rs ih =>
      rw [dedupRows]
      by_cases hm : getCell r "email_address" ∈ seen
      · rw [if_pos hm]
        have hne : (emailOf r == v) = false := by
          rw [beq_eq_false_iff_ne]
          intro hc
          exact hv (hc ▸ hm)
        rw [List.find?_cons, hne]
        exact ih seen hv
      · rw [if_neg hm]
        by_cases hveq : emailOf r = v
        · rw [List.find?_cons, List.find?_cons]
          have : (emailOf r == v) = true := beq_iff_eq.mpr hveq
          rw [this]
        · have hne : (emailOf r == v) = false := beq_eq_false_iff_ne.mpr hveq
          rw [List.find?_cons, List.find?_cons, hne]
          refine ih _ ?_
          intro hc
          rcases List.mem_cons.mp hc with hc | hc
          · exact hveq (by simpa [emailOf] using hc.symm)
          · exact hv hc

/-- A filter that drops nothing passes every element. -/
theorem filter_length_eq_all {α : Type} (p : α → Bool) (l : List α)
    (h : (l.filter p).length = l.length) : ∀ a ∈ l, p a = true := by
  induction l with
  | nil => exact fun a ha => absurd ha (List.not_mem_nil a)
  | cons a l ih =>
      rw [List.filter_cons] at h
      by_cases hp : p a
      · rw [if_pos hp] at h
        simp only [List.length_cons, Nat.add_right_cancel_iff] at h
        intro b hb
        rcases List.mem_cons.mp hb with rfl | hb
        · exact hp
        · exact ih h b hb
      · rw [if_neg hp] at h
        have := List.length_filter_le p l
        rw [h] at this
        simp at this

/-! ## Stage-level lemmas -/

/-- Mapping a function that fixes every member is the identity. -/
theorem map_eq_self_of_mem {α : Type} (f : α → α) (l : List α)
    (h : ∀ a ∈ l, f a = a) : l.map f = l := by
  induction l with
  | nil => rfl
  | cons a l ih =>
      rw [List.map_cons, h a (List.mem_cons.mpr (Or.inl rfl)),
        ih (fun b hb => h b (List.mem_cons.mpr (Or.inr hb)))]

/-- The two strip stages preserve the row count. -/
theorem stripRows_length (c : String) (rows : List Row) :
    (stripRows c rows).length = rows.length := List.length_map _ _

/-- Length facts for each guarded stage. -/
theorem nameStripStage_length (cols : List String) (rows : List Row) :
    (nameStripStage cols rows).length = rows.length := by
  rw [nameStripStage]
  split <;> simp [stripRows]

/-- Length of the location strip stage. -/
theorem locStripStage_length (cols : List String) (rows : List Row) :
    (locStripStage cols rows).length = rows.length := by
  rw [locStripStage]
  split <;> simp [stripRows]

/-- The age stage never grows the table. -/
theorem ageStage_length_le (cols : List String) (rows : List Row) :
    (ageStage cols rows).length ≤ rows.length := by
  rw [ageStage]
  split
  · calc (ageRows rows).length ≤ (rows.map (setCell "age" toNumeric)).length :=
          List.length_filter_le _ _
      _ = rows.length := List.length_map _ _
  · exact Nat.le_refl _

/-- The email-format stage never grows the table. -/
theorem emailStage_length_le (cols : List String) (rows : List Row) :
    (emailStage cols rows).length ≤ rows.length := by
  rw [emailStage]
  split
  · exact List.length_filter_le _ _
  · exact Nat.le_refl _

/-- The dedup stage never grows the table. -/
theorem dedupStage_length_le (cols : List String) (rows : List Row) :
    (dedupStage cols rows).length ≤ rows.length := by
  rw [dedupStage]
  split
  · exact dedupRows_length_le [] rows
  · exact Nat.le_refl _

/-- The date stage never grows the table. -/
theorem dateStage_length_le (cols : List String) (rows : List Row) :
    (dateStage cols rows).length ≤ rows.length := by
  rw [dateStage]
  split
  · exact List.length_filter_le _ _
  · exact Nat.le_refl _

/-- No stage of the pipeline ever adds a row. -/
theorem pipelineRows_length_le (cols : List String) (rows : List Row) :
    (pipelineRows cols rows).length ≤ rows.length := by
  rw [pipelineRows]
  calc (dateStage cols _).length
      ≤ (dedupStage cols _).length := dateStage_length_le _ _
    _ ≤ (emailStage cols _).length := dedupStage_length_le _ _
    _ ≤ (ageStage cols _).length := emailStage_length_le _ _
    _ ≤ (locStripStage cols _).length := ageStage_length_le _ _
    _ = (nameStripStage cols _).length := locStripStage_length _ _
    _ = (nameFilterRows rows).length := nameStripStage_length _ _
    _ ≤ rows.length := List.length_filter_le _ _

/-- Reading an untouched column through the row transform. -/
theorem getCell_transformRow_ne (cols : List String) (r : Row) (c : String)
    (h1 : "full_name" ≠ c) (h2 : "location" ≠ c) (h3 : "age" ≠ c) :
    getCell (transformRow cols r) c = getCell r c := by
  have e1 : ∀ (f : Cell → Cell) (r₀ : Row),
      getCell (setCell "full_name" f r₀) c = getCell r₀ c :=
    fun f r₀ => getCell_setCell_ne _ _ _ _ h1
  have e2 : ∀ (f : Cell → Cell) (r₀ : Row),
      getCell (setCell "location" f r₀) c = getCell r₀ c :=
    fun f r₀ => getCell_setCell_ne _ _ _ _ h2
  have e3 : ∀ (f : Cell → Cell) (r₀ : Row),
      getCell (setCell "age" f r₀) c = getCell r₀ c :=
    fun f r₀ => getCell_setCell_ne _ _ _ _ h3
  rw [transformRow]
  split <;> split <;> split <;> simp only [e1, e2, e3]

/-- Membership in the first four stages: every row of the age stage's
output is the transform of an input row that passed the name filter. -/
theorem mem_stages_to_age (cols : List String) (rows : List Row) (r' : Row)
    (h : r' ∈ ageStage cols (locStripStage cols (nameStripStage cols
      (nameFilterRows rows)))) :
    ∃ r ∈ rows, r' = transformRow cols r ∧
      missingNameB (getCell r "full_name") = false := by
  have step : ∃ x ∈ locStripStage cols (nameStripStage cols (nameFilterRows rows)),
      r' = (if "age" ∈ cols then setCell "age" toNumeric x else x) := by
    rw [ageStage] at h
    by_cases ha : "age" ∈ cols
    · rw [if_pos ha] at h
      rw [ageRows] at h
      rcases List.mem_filter.mp h with ⟨hmem, _⟩
      rcases List.mem_map.mp hmem with ⟨x, hx, rfl⟩
      exact ⟨x, hx, by rw [if_pos ha]⟩
    · rw [if_neg ha] at h
      exact ⟨r', h, by rw [if_neg ha]⟩
  rcases step with ⟨x, hx, hxe⟩
  have step2 : ∃ y ∈ nameStripStage cols (nameFilterRows rows),
      x = (if "location" ∈ cols then
        setCell "location" (fun v => .str (pyStrip (pyStr v))) y else y) := by
    rw [locStripStage] at hx
    by_cases hl : "location" ∈ cols
    · rw [if_pos hl] at hx
      rcases List.mem_map.mp hx with ⟨y, hy, rfl⟩
      exact ⟨y, hy, by rw [if_pos hl]⟩
    · rw [if_neg hl] at hx
      exact ⟨x, hx, by rw [if_neg hl]⟩
  rcases step2 with ⟨y, hy, hye⟩
  have step3 : ∃ z ∈ nameFilterRows rows,
      y = (if "full_name" ∈ cols then
        setCell "full_name" (fun v => .str (pyStrip (pyStr v))) z else z) := by
    rw [nameStripStage] at hy
    by_cases hf : "full_name" ∈ cols
    · rw [if_pos hf] at hy
      rcases List.mem_map.mp hy with ⟨z, hz, rfl⟩
      exact ⟨z, hz, by rw [if_pos hf]⟩
    · rw [if_neg hf] at hy
      exact ⟨y, hy, by rw [if_neg hf]⟩
  rcases step3 with ⟨z, hz, hze⟩
  rcases List.mem_filter.mp hz with ⟨hzmem, hzpass⟩
  refine ⟨z, hzmem, ?_, by simpa using hzpass⟩
  rw [transformRow, hxe, hye, hze]

/-- Membership in the full pipeline: every output row is the transform of
an input row that passed the name filter. -/
theorem pipelineRows_mem (cols : List String) (rows : List Row) (r' : Row)
    (h : r' ∈ pipelineRows cols rows) :
    ∃ r ∈ rows, r' = transformRow cols r ∧
      missingNameB (getCell r "full_name") = false := by
  rw [pipelineRows] at h
  have h6 : r' ∈ dedupStage cols (emailStage cols (ageStage cols
      (locStripStage cols (nameStripStage cols (nameFilterRows rows))))) := by
    rw [dateStage] at h
    by_cases hd : "date_joined" ∈ cols
    · rw [if_pos hd] at h
      exact (List.mem_filter.mp h).1
    · rw [if_neg hd] at h
      exact h
  have h5 : r' ∈ emailStage cols (ageStage cols
      (locStripStage cols (nameStripStage cols (nameFilterRows rows)))) := by
    rw [dedupStage] at h6
    by_cases he : "email_address" ∈ cols
    · rw [if_pos he] at h6
      exact (dedupRows_sublist [] _).subset h6
    · rw [if_neg he] at h6
      exact h6
  have h4 : r' ∈ ageStage cols
      (locStripStage cols (nameStripStage cols (nameFilterRows rows))) := by
    rw [emailStage] at h5
    by_cases he : "email_address" ∈ cols
    · rw [if_pos he] at h5
      exact (List.mem_filter.mp h5).1
    · rw [if_neg he] at h5
      exact h5
  exact mem_stages_to_age cols rows r' h4

/-! ## Pipeline output invariants -/

/-- The name invariant only reads the `full_name` column. -/
theorem nameOkB_setCell_ne (c : String) (f : Cell → Cell) (r : Row)
    (h : c ≠ "full_name") : nameOkB (setCell c f r) = nameOkB r := by
  rw [nameOkB, nameOkB, getCell_setCell_ne _ _ _ _ h]

/-- A row with a trimmed nonempty name passes the name filter. -/
theorem missingName_of_nameOk (r : Row) (h : nameOkB r = true) :
    missingNameB (getCell r "full_name") = false := by
  rw [nameOkB] at h
  cases hv : getCell r "full_name" with
  | null => rw [hv] at h; simp at h
  | num q => rw [hv] at h; simp at h
  | str s =>
      rw [hv] at h
      simp only [Bool.and_eq_true, beq_iff_eq, Bool.not_eq_true'] at h
      rw [missingNameB]
      simp [pyStr, h.1, h.2]

/-- Stripping the name of a row that passed the name filter yields a
trimmed, nonempty name. -/
theorem nameOk_of_strip (z : Row)
    (h : missingNameB (getCell z "full_name") = false) :
    nameOkB (setCell "full_name" (fun v => .str (pyStrip (pyStr v))) z) = true := by
  by_cases hc : hasCol "full_name" z = true
  · rw [nameOkB, getCell_setCell_self _ _ _ hc]
    rw [missingNameB, Bool.or_eq_false_iff] at h
    simp only [pyStrip_idem, beq_self_eq_true, Bool.true_and, Bool.not_eq_true',
      beq_eq_false_iff_ne, ne_eq]
    intro hcontra
    have hbeq : (pyStrip (pyStr (getCell z "full_name")) == "") = true :=
      beq_iff_eq.mpr hcontra
    rw [h.2] at hbeq
    exact Bool.false_ne_true hbeq
  · rw [getCell_of_not_hasCol _ _ (Bool.eq_false_iff.mpr hc)] at h
    rw [missingNameB] at h
    simp at h

/-- Invariants after the first four stages (name filter, name strip,
location strip, age rule). -/
theorem stages_to_age_inv (cols : List String) (rows : List Row)
    (hfn : "full_name" ∈ cols) :
    ∀ x ∈ ageStage cols (locStripStage cols (nameStripStage cols
      (nameFilterRows rows))),
      nameOkB x = true ∧ trimmedPairsB "full_name" x = true ∧
      ("location" ∈ cols → trimmedPairsB "location" x = true) ∧
      ("age" ∈ cols →
        numericPairsB "age" x = true ∧ agePassB (getCell x "age") = true) := by
  have q2 : ∀ y ∈ nameStripStage cols (nameFilterRows rows),
      nameOkB y = true ∧ trimmedPairsB "full_name" y = true := by
    intro y hy
    rw [nameStripStage, if_pos hfn, stripRows] at hy
    rcases List.mem_map.mp hy with ⟨z, hz, rfl⟩
    rcases List.mem_filter.mp hz with ⟨_, hzpass⟩
    exact ⟨nameOk_of_strip z (by simpa using hzpass), trimmedPairs_strip _ _⟩
  have q3 : ∀ x ∈ locStripStage cols (nameStripStage cols (nameFilterRows rows)),
      nameOkB x = true ∧ trimmedPairsB "full_name" x = true ∧
      ("location" ∈ cols → trimmedPairsB "location" x = true) := by
    intro x hx
    rw [locStripStage] at hx
    by_cases hl : "location" ∈ cols
    · rw [if_pos hl, stripRows] at hx
      rcases List.mem_map.mp hx with ⟨y, hy, rfl⟩
      rcases q2 y hy with ⟨hn, ht⟩
      exact ⟨by rw [nameOkB_setCell_ne _ _ _ (by decide)]; exact hn,
        trimmedPairs_setCell_ne _ _ _ _ (by decide) ht,
        fun _ => trimmedPairs_strip _ _⟩
    · rw [if_neg hl] at hx
      rcases q2 x hx with ⟨hn, ht⟩
      exact ⟨hn, ht, fun hc => absurd hc hl⟩
  intro x hx
  rw [ageStage] at hx
  by_cases ha : "age" ∈ cols
  · rw [if_pos ha, ageRows] at hx
    rcases List.mem_filter.mp hx with ⟨hmem, hpass⟩
    rcases List.mem_map.mp hmem with ⟨w, hw, rfl⟩
    rcases q3 w hw with ⟨hn, ht, hl⟩
    refine ⟨by rw [nameOkB_setCell_ne _ _ _ (by decide)]; exact hn,
      trimmedPairs_setCell_ne _ _ _ _ (by decide) ht,
      fun hlc => trimmedPairs_setCell_ne _ _ _ _ (by decide) (hl hlc),
      fun _ => ⟨numericPairs_set_toNumeric _ _, hpass⟩⟩
  · rw [if_neg ha] at hx
    rcases q3 x hx with ⟨hn, ht, hl⟩
    exact ⟨hn, ht, hl, fun hc => absurd hc ha⟩

/-- Invariants of every row of the pipeline's output. -/
theorem pipelineRows_mem_inv (cols : List String) (rows : List Row)
    (hfn : "full_name" ∈ cols) :
    ∀ r' ∈ pipelineRows cols rows,
      nameOkB r' = true ∧ trimmedPairsB "full_name" r' = true ∧
      ("location" ∈ cols → trimmedPairsB "location" r' = true) ∧
      ("age" ∈ cols →
        numericPairsB "age" r' = true ∧ agePassB (getCell r' "age") = true) ∧
      ("email_address" ∈ cols →
        emailBadB (getCell r' "email_address") = false) ∧
      ("date_joined" ∈ cols →
        dateParsesB (getCell r' "date_joined") = true) := by
  intro r' h
  rw [pipelineRows] at h
  have hdate : r' ∈ dedupStage cols (emailStage cols (ageStage cols
      (locStripStage cols (nameStripStage cols (nameFilterRows rows))))) ∧
      ("date_joined" ∈ cols → dateParsesB (getCell r' "date_joined") = true) := by
    rw [dateStage] at h
    by_cases hd : "date_joined" ∈ cols
    · rw [if_pos hd, dateFilterRows] at h
      rcases List.mem_filter.mp h with ⟨h6, hp⟩
      exact ⟨h6, fun _ => hp⟩
    · rw [if_neg hd] at h
      exact ⟨h, fun hc => absurd hc hd⟩
  rcases hdate with ⟨h6, hdfact⟩
  have h5 : r' ∈ emailStage cols (ageStage cols
      (locStripStage cols (nameStripStage cols (nameFilterRows rows)))) := by
    rw [dedupStage] at h6
    by_cases he : "email_address" ∈ cols
    · rw [if_pos he] at h6
      exact (dedupRows_sublist [] _).subset h6
    · rw [if_neg he] at h6
      exact h6
  have hemail : r' ∈ ageStage cols
      (locStripStage cols (nameStripStage cols (nameFilterRows rows))) ∧
      ("email_address" ∈ cols →
        emailBadB (getCell r' "email_address") = false) := by
    rw [emailStage] at h5
    by_cases he : "email_address" ∈ cols
    · rw [if_pos he, emailFilterRows] at h5
      rcases List.mem_filter.mp h5 with ⟨h4, hp⟩
      exact ⟨h4, fun _ => by simpa using hp⟩
    · rw [if_neg he] at h5
      exact ⟨h5, fun hc => absurd hc he⟩
  rcases hemail with ⟨h4, hefact⟩
  rcases stages_to_age_inv cols rows hfn r' h4 with ⟨hn, ht, hl, ha⟩
  exact ⟨hn, ht, hl, ha, hefact, hdfact⟩

/-- Email values in the pipeline's output are pairwise distinct whenever
the email column is present (the dedup stage ran). -/
theorem pipelineRows_emails_nodup (cols : List String) (rows : List Row)
    (he : "email_address" ∈ cols) :
    ((pipelineRows cols rows).map emailOf).Nodup := by
  rw [pipelineRows, dedupStage, if_pos he]
  have hnd := (dedupRows_nodup [] (emailStage cols (ageStage cols
    (locStripStage cols (nameStripStage cols (nameFilterRows rows)))))).1
  rw [dateStage]
  by_cases hd : "date_joined" ∈ cols
  · rw [if_pos hd]
    exact ((List.filter_sublist _).map emailOf).nodup hnd
  · rw [if_neg hd]
    exact hnd

/-! ## Fixed-point lemmas -/

/-- Rows already satisfying every per-stage invariant pass through the
whole pipeline unchanged. -/
theorem pipelineRows_eq_self (cols : List String) (rows : List Row)
    (hfn : "full_name" ∈ cols)
    (h1 : ∀ r ∈ rows, nameOkB r = true)
    (h2 : ∀ r ∈ rows, trimmedPairsB "full_name" r = true)
    (h3 : "location" ∈ cols → ∀ r ∈ rows, trimmedPairsB "location" r = true)
    (h4 : "age" ∈ cols → ∀ r ∈ rows,
      numericPairsB "age" r = true ∧ agePassB (getCell r "age") = true)
    (h5 : "email_address" ∈ cols → ∀ r ∈ rows,
      emailBadB (getCell r "email_address") = false)
    (h6 : "email_address" ∈ cols → (rows.map emailOf).Nodup)
    (h7 : "date_joined" ∈ cols → ∀ r ∈ rows,
      dateParsesB (getCell r "date_joined") = true) :
    pipelineRows cols rows = rows := by
  have e1 : nameFilterRows rows = rows := by
    rw [nameFilterRows]
    exact List.filter_eq_self.mpr (fun r hr => by
      simp [missingName_of_nameOk r (h1 r hr)])
  have e2 : nameStripStage cols rows = rows := by
    rw [nameStripStage, if_pos hfn, stripRows]
    exact map_eq_self_of_mem _ _
      (fun r hr => setCell_strip_of_trimmed _ _ (h2 r hr))
  have e3 : locStripStage cols rows = rows := by
    rw [locStripStage]
    by_cases hl : "location" ∈ cols
    · rw [if_pos hl, stripRows]
      exact map_eq_self_of_mem _ _
        (fun r hr => setCell_strip_of_trimmed _ _ (h3 hl r hr))
    · rw [if_neg hl]
  have e4 : ageStage cols rows = rows := by
    rw [ageStage]
    by_cases ha : "age" ∈ cols
    · rw [if_pos ha, ageRows,
        map_eq_self_of_mem _ _
          (fun r hr => setCell_toNumeric_of_numeric _ _ ((h4 ha r hr).1))]
      exact List.filter_eq_self.mpr (fun r hr => (h4 ha r hr).2)
    · rw [if_neg ha]
  have e5 : emailStage cols rows = rows := by
    rw [emailStage]
    by_cases he : "email_address" ∈ cols
    · rw [if_pos he, emailFilterRows]
      exact List.filter_eq_self.mpr (fun r hr => by simp [h5 he r hr])
    · rw [if_neg he]
  have e6 : dedupStage cols rows = rows := by
    rw [dedupStage]
    by_cases he : "email_address" ∈ cols
    · rw [if_pos he]
      exact dedupRows_eq_self [] rows (h6 he)
        (fun r hr => List.not_mem_nil (emailOf r))
    · rw [if_neg he]
  have e7 : dateStage cols rows = rows := by
    rw [dateStage]
    by_cases hd : "date_joined" ∈ cols
    · rw [if_pos hd, dateFilterRows]
      exact List.filter_eq_self.mpr (fun r hr => h7 hd r hr)
    · rw [if_neg hd]
  rw [pipelineRows, e1, e2, e3, e4, e5, e6, e7]

/-- Running the pipeline a second time on its own output is the
identity. -/
theorem pipelineRows_idem (cols : List String) (rows : List Row)
    (hfn : "full_name" ∈ cols) :
    pipelineRows cols (pipelineRows cols rows) = pipelineRows cols rows := by
  have hinv := pipelineRows_mem_inv cols rows hfn
  refine pipelineRows_eq_self cols _ hfn
    (fun r hr => (hinv r hr).1)
    (fun r hr => (hinv r hr).2.1)
    (fun hl r hr => (hinv r hr).2.2.1 hl)
    (fun ha r hr => (hinv r hr).2.2.2.1 ha)
    (fun he r hr => (hinv r hr).2.2.2.2.1 he)
    (fun he => pipelineRows_emails_nodup cols rows he)
    (fun hd r hr => (hinv r hr).2.2.2.2.2 hd)

/-- Reading the updated column through an update that fixes NaN. -/
theorem getCell_setCell_nullfix (c : String) (f : Cell → Cell) (r : Row)
    (hnull : f Cell.null = Cell.null) :
    getCell (setCell c f r) c = f (getCell r c) := by
  by_cases hc : hasCol c r = true
  · exact getCell_setCell_self c f r hc
  · have hc' : hasCol c r = false := Bool.eq_false_iff.mpr hc
    rw [getCell_of_not_hasCol c r hc']
    have hset : hasCol c (setCell c f r) = false := by
      rw [hasCol_setCell]; exact hc'
    rw [getCell_of_not_hasCol c _ hset, hnull]

/-- The first three stages as a single map over the input rows (no row is
dropped by the strip stages; the name filter is assumed to drop none). -/
theorem stages3_map_form (cols : List String) (rows : List Row)
    (hfn : "full_name" ∈ cols) :
    locStripStage cols (nameStripStage cols rows) =
      rows.map (fun ρ =>
        if "location" ∈ cols then
          setCell "location" (fun v => .str (pyStrip (pyStr v)))
            (setCell "full_name" (fun v => .str (pyStrip (pyStr v))) ρ)
        else setCell "full_name" (fun v => .str (pyStrip (pyStr v))) ρ) := by
  by_cases hl : "location" ∈ cols
  · rw [locStripStage, if_pos hl, nameStripStage, if_pos hfn, stripRows,
      stripRows, List.map_map]
    exact List.map_congr_left (fun ρ _ => by rw [if_pos hl]; rfl)
  · rw [locStripStage, if_neg hl, nameStripStage, if_pos hfn, stripRows]
    exact List.map_congr_left (fun ρ _ => by rw [if_neg hl])

/-- Facts forced on the input when the pipeline drops no row: every rule's
predicate already held of every input row. -/
theorem pipelineRows_length_eq_facts (cols : List String) (rows : List Row)
    (hfn : "full_name" ∈ cols)
    (hlen : (pipelineRows cols rows).length = rows.length) :
    (∀ r ∈ rows, missingNameB (getCell r "full_name") = false) ∧
    ("age" ∈ cols → ∀ r ∈ rows,
      agePassB (toNumeric (getCell r "age")) = true) ∧
    ("email_address" ∈ cols → ∀ r ∈ rows,
      emailBadB (getCell r "email_address") = false) ∧
    ("email_address" ∈ cols → (rows.map emailOf).Nodup) ∧
    ("date_joined" ∈ cols → ∀ r ∈ rows,
      dateParsesB (getCell r "date_joined") = true) := by
  have c7 := dateStage_length_le cols (dedupStage cols (emailStage cols
    (ageStage cols (locStripStage cols (nameStripStage cols
      (nameFilterRows rows))))))
  have c6 := dedupStage_length_le cols (emailStage cols (ageStage cols
    (locStripStage cols (nameStripStage cols (nameFilterRows rows)))))
  have c5 := emailStage_length_le cols (ageStage cols
    (locStripStage cols (nameStripStage cols (nameFilterRows rows))))
  have c4 := ageStage_length_le cols
    (locStripStage cols (nameStripStage cols (nameFilterRows rows)))
  have c3 := locStripStage_length cols (nameStripStage cols (nameFilterRows rows))
  have c2 := nameStripStage_length cols (nameFilterRows rows)
  have c1 := List.length_filter_le
    (fun r => !missingNameB (getCell r "full_name")) rows
  rw [pipelineRows] at hlen
  rw [show List.filter (fun r => !missingNameB (getCell r "full_name")) rows
      = nameFilterRows rows from rfl] at c1
  have l1 : (nameFilterRows rows).length = rows.length := by omega
  have hname : ∀ r ∈ rows, missingNameB (getCell r "full_name") = false := by
    intro r hr
    have := filter_length_eq_all _ rows l1 r hr
    simpa using this
  have hR1 : nameFilterRows rows = rows := by
    rw [nameFilterRows]
    exact List.filter_eq_self.mpr (fun r hr => by simp [hname r hr])
  rw [hR1] at hlen c2 c3 c4 c5 c6 c7
  have hR3 := stages3_map_form cols rows hfn
  have l4eq : (ageStage cols (locStripStage cols
      (nameStripStage cols rows))).length =
      (locStripStage cols (nameStripStage cols rows)).length := by omega
  have l3len : (locStripStage cols (nameStripStage cols rows)).length
      = rows.length := by
    rw [hR3, List.length_map]
  have hage : "age" ∈ cols → ∀ r ∈ rows,
      agePassB (toNumeric (getCell r "age")) = true := by
    intro ha r hr
    rw [ageStage, if_pos ha, ageRows] at l4eq
    have hall := filter_length_eq_all (fun x => agePassB (getCell x "age"))
      ((locStripStage cols (nameStripStage cols rows)).map
        (setCell "age" toNumeric))
      (by rw [l4eq, List.length_map])
    have hx : setCell "age" toNumeric
        ((fun ρ => if "location" ∈ cols then
          setCell "location" (fun v => .str (pyStrip (pyStr v)))
            (setCell "full_name" (fun v => .str (pyStrip (pyStr v))) ρ)
        else setCell "full_name" (fun v => .str (pyStrip (pyStr v))) ρ) r) ∈
        (locStripStage cols (nameStripStage cols rows)).map
          (setCell "age" toNumeric) := by
      rw [hR3]
      exact List.mem_map.mpr ⟨_, List.mem_map.mpr ⟨r, hr, rfl⟩, rfl⟩
    have hpass : agePassB (getCell (setCell "age" toNumeric
        (if "location" ∈ cols then
          setCell "location" (fun v => .str (pyStrip (pyStr v)))
            (setCell "full_name" (fun v => .str (pyStrip (pyStr v))) r)
        else setCell "full_name" (fun v => .str (pyStrip (pyStr v))) r))
        "age") = true := hall _ hx
    rw [getCell_setCell_nullfix "age" toNumeric _ rfl] at hpass
    have hinner : getCell (if "location" ∈ cols then
        setCell "location" (fun v => .str (pyStrip (pyStr v)))
          (setCell "full_name" (fun v => .str (pyStrip (pyStr v))) r)
      else setCell "full_name" (fun v => .str (pyStrip (pyStr v))) r) "age"
        = getCell r "age" := by
      by_cases hl : "location" ∈ cols
      · simp only [if_pos hl]
        rw [getCell_setCell_ne _ _ _ _ (by decide),
          getCell_setCell_ne _ _ _ _ (by decide)]
      · simp only [if_neg hl]
        rw [getCell_setCell_ne _ _ _ _ (by decide)]
    rw [hinner] at hpass
    exact hpass
  have hR4 : ageStage cols (locStripStage cols (nameStripStage cols rows))
      = rows.map (transformRow cols) := by
    by_cases ha : "age" ∈ cols
    · rw [ageStage, if_pos ha, ageRows]
      have hfull : ((locStripStage cols (nameStripStage cols rows)).map
          (setCell "age" toNumeric)).filter
            (fun x => agePassB (getCell x "age")) =
          (locStripStage cols (nameStripStage cols rows)).map
            (setCell "age" toNumeric) := by
        rw [ageStage, if_pos ha, ageRows] at l4eq
        exact List.filter_eq_self.mpr (filter_length_eq_all _ _
          (by rw [l4eq, List.length_map]))
      rw [hfull, hR3, List.map_map]
      refine List.map_congr_left (fun ρ _ => ?_)
      rw [transformRow]
      simp only [if_pos hfn, if_pos ha]
      rfl
    · rw [ageStage, if_neg ha, hR3]
      refine List.map_congr_left (fun ρ _ => ?_)
      rw [transformRow]
      simp only [if_pos hfn, if_neg ha]
  rw [hR4] at c4 c5 c6 c7 hlen
  have lmap : (rows.map (transformRow cols)).length = rows.length :=
    List.length_map _ _
  have l5eq : (emailStage cols (rows.map (transformRow cols))).length
      = rows.length := by
    omega
  have hemailval : ∀ r : Row,
      getCell (transformRow cols r) "email_address" =
        getCell r "email_address" :=
    fun r => getCell_transformRow_ne cols r _ (by decide) (by decide) (by decide)
  have hdateval : ∀ r : Row,
      getCell (transformRow cols r) "date_joined" = getCell r "date_joined" :=
    fun r => getCell_transformRow_ne cols r _ (by decide) (by decide) (by decide)
  have hemail : "email_address" ∈ cols → ∀ r ∈ rows,
      emailBadB (getCell r "email_address") = false := by
    intro he r hr
    rw [emailStage, if_pos he, emailFilterRows] at l5eq
    have hall := filter_length_eq_all _ _ (by rw [l5eq, List.length_map])
    have := hall (transformRow cols r) (List.mem_map.mpr ⟨r, hr, rfl⟩)
    rw [hemailval r] at this
    simpa using this
  have hR5 : emailStage cols (rows.map (transformRow cols))
      = rows.map (transformRow cols) := by
    rw [emailStage]
    by_cases he : "email_address" ∈ cols
    · rw [if_pos he, emailFilterRows]
      refine List.filter_eq_self.mpr (fun x hx => ?_)
      rcases List.mem_map.mp hx with ⟨r, hr, rfl⟩
      rw [hemailval r]
      simp [hemail he r hr]
    · rw [if_neg he]
  rw [hR5] at c5 c6 c7 hlen
  have l6eq : (dedupStage cols (rows.map (transformRow cols))).length
      = rows.length := by
    omega
  have hemails_eq : (rows.map (transformRow cols)).map emailOf
      = rows.map emailOf := by
    rw [List.map_map]
    exact List.map_congr_left (fun r _ => hemailval r)
  have hnodup : "email_address" ∈ cols → (rows.map emailOf).Nodup := by
    intro he
    rw [dedupStage, if_pos he] at l6eq
    have := (dedupRows_length_eq [] _ (by rw [l6eq, List.length_map])).1
    rw [hemails_eq] at this
    exact this
  have hR6 : dedupStage cols (rows.map (transformRow cols))
      = rows.map (transformRow cols) := by
    rw [dedupStage]
    by_cases he : "email_address" ∈ cols
    · rw [if_pos he]
      refine dedupRows_eq_self [] _ ?_ (fun r hr => List.not_mem_nil _)
      rw [hemails_eq]
      exact hnodup he
    · rw [if_neg he]
  rw [hR6] at c6 c7 hlen
  have hdate : "date_joined" ∈ cols → ∀ r ∈ rows,
      dateParsesB (getCell r "date_joined") = true := by
    intro hd r hr
    rw [dateStage, if_pos hd, dateFilterRows] at hlen
    have hall := filter_length_eq_all _ _ (by rw [hlen, List.length_map])
    have := hall (transformRow cols r) (List.mem_map.mpr ⟨r, hr, rfl⟩)
    rw [hdateval r] at this
    exact this
  exact ⟨hname, hage, hemail, hnodup, hdate⟩

/-! ## Validator and well-formedness helpers -/

/-- A passed presence phase means every declared column exists. -/
theorem checkPresence_none (L : List PaColumn) (t : Table)
    (h : checkPresence L t = none) : ∀ sc ∈ L, sc.cname ∈ t.cols := by
  induction L with
  | nil => exact fun sc hsc => absurd hsc (List.not_mem_nil sc)
  | cons sc rest ih =>
      rw [checkPresence] at h
      by_cases hp : sc.cname ∈ t.cols
      · rw [if_pos hp] at h
        intro sc' hsc'
        rcases List.mem_cons.mp hsc' with rfl | hsc'
        · exact hp
        · exact ih h sc' hsc'
      · rw [if_neg hp] at h
        cases h

/-- A passed value phase means every declared column's cells pass. -/
theorem checkValues_none (L : List PaColumn) (t : Table)
    (h : checkValues L t = none) :
    ∀ sc ∈ L, ∀ r ∈ t.rows, cellPassesB sc (getCell r sc.cname) = true := by
  induction L with
  | nil => exact fun sc hsc => absurd hsc (List.not_mem_nil sc)
  | cons sc rest ih =>
      rw [checkValues] at h
      by_cases hp : t.rows.all
          (fun r => cellPassesB sc (getCell r sc.cname)) = true
      · rw [if_pos hp] at h
        intro sc' hsc'
        rcases List.mem_cons.mp hsc' with rfl | hsc'
        · exact fun r hr => List.all_eq_true.mp hp r hr
        · exact ih h sc' hsc'
      · rw [if_neg hp] at h
        cases h

/-- A successful validation means both phases passed. -/
theorem validateCols_ok_phases (L : List PaColumn) (t t' : Table)
    (h : validateCols L t = .ok t') :
    checkPresence L t = none ∧ checkValues L t = none := by
  rw [validateCols] at h
  cases hp : checkPresence L t with
  | some v => rw [hp] at h; cases h
  | none =>
      rw [hp] at h
      cases hv : checkValues L t with
      | some v => rw [hv] at h; cases h
      | none => exact ⟨rfl, rfl⟩

/-- A successful validation means every declared column accepted the
table. -/
theorem validateCols_ok_accepts (L : List PaColumn) (t t' : Table)
    (h : validateCols L t = .ok t') : ∀ sc ∈ L, colAcceptsB sc t = true := by
  rcases validateCols_ok_phases L t t' h with ⟨hp, hv⟩
  intro sc hsc
  rw [colAcceptsB, Bool.and_eq_true, decide_eq_true_eq, List.all_eq_true]
  exact ⟨checkPresence_none L t hp sc hsc, checkValues_none L t hv sc hsc⟩

/-- A successful validation returns the table unchanged. -/
theorem validateCols_ok_eq (L : List PaColumn) (t t' : Table)
    (h : validateCols L t = .ok t') : t' = t := by
  rcases validateCols_ok_phases L t t' h with ⟨hp, hv⟩
  rw [validateCols, hp, hv] at h
  exact (Except.ok.inj h).symm

/-- Unpacking a column acceptance. -/
theorem colAcceptsB_facts (sc : PaColumn) (t : Table)
    (h : colAcceptsB sc t = true) :
    sc.cname ∈ t.cols ∧
      ∀ r ∈ t.rows, cellPassesB sc (getCell r sc.cname) = true := by
  rw [colAcceptsB, Bool.and_eq_true, decide_eq_true_eq] at h
  exact ⟨h.1, fun r hr => List.all_eq_true.mp h.2 r hr⟩

/-- Row keys of a well-formed table. -/
theorem wellFormed_keys (t : Table) (h : WellFormedB t = true) :
    ∀ r ∈ t.rows, r.map Prod.fst = t.cols := by
  intro r hr
  have := List.all_eq_true.mp h r hr
  simpa using this

/-- Column presence as key membership. -/
theorem hasCol_iff_mem_keys (c : String) (r : Row) :
    hasCol c r = true ↔ c ∈ r.map Prod.fst := by
  rw [hasCol, List.any_eq_true]
  constructor
  · rintro ⟨p, hp, hpc⟩
    exact List.mem_map.mpr ⟨p, hp, beq_iff_eq.mp hpc⟩
  · intro h
    rcases List.mem_map.mp h with ⟨p, hp, hpc⟩
    exact ⟨p, hp, beq_iff_eq.mpr hpc⟩

/-- In a row with pairwise distinct keys, every entry's value is the value
read at its key. -/
theorem pair_val_of_nodup_keys (r : Row) (hnd : (r.map Prod.fst).Nodup)
    (p : String × Cell) (hp : p ∈ r) : p.2 = getCell r p.1 := by
  induction r with
  | nil => exact absurd hp (List.not_mem_nil p)
  | cons q rest ih =>
      rw [List.map_cons, List.nodup_cons] at hnd
      rcases List.mem_cons.mp hp with heq | hp'
      · rw [heq]
        show q.2 = if q.1 = q.1 then q.2 else getCell rest q.1
        rw [if_pos rfl]
      · have hne : ¬q.1 = p.1 := by
          intro hc
          exact hnd.1 (hc ▸ List.mem_map.mpr ⟨p, hp', rfl⟩)
        show p.2 = if q.1 = p.1 then q.2 else getCell rest p.1
        rw [if_neg hne]
        exact ih hnd.2 hp'

/-- Getting a trimmed string at a key yields the trimmed-pairs invariant
for rows with pairwise distinct keys. -/
theorem trimmedPairs_of_getCell (c : String) (r : Row)
    (hnd : (r.map Prod.fst).Nodup)
    (h : ∃ s, getCell r c = Cell.str s ∧ pyStrip s = s) :
    trimmedPairsB c r = true := by
  rw [trimmedPairsB, List.all_eq_true]
  intro p hp
  by_cases hpc : p.1 = c
  · rcases h with ⟨s, hs1, hs2⟩
    have := pair_val_of_nodup_keys r hnd p hp
    rw [hpc, hs1] at this
    rw [this]
    simp [hpc, hs2]
  · simp [hpc]

/-- Getting a non-string cell at a key yields the numeric-pairs invariant
for rows with pairwise distinct keys. -/
theorem numericPairs_of_getCell (c : String) (r : Row)
    (hnd : (r.map Prod.fst).Nodup)
    (h : ∀ s, getCell r c ≠ Cell.str s) : numericPairsB c r = true := by
  rw [numericPairsB, List.all_eq_true]
  intro p hp
  by_cases hpc : p.1 = c
  · have := pair_val_of_nodup_keys r hnd p hp
    rw [hpc] at this
    cases hv : getCell r c with
    | null => rw [hv] at this; rw [this]; simp [hpc]
    | num q => rw [hv] at this; rw [this]; simp [hpc]
    | str s => exact absurd hv (h s)
  · simp [hpc]

/-! ## Destructuring a successful cleaning run -/

/-- A successful run implies the `full_name` column was present, and fixes
the output table and the report. -/
theorem clean_success_facts (t t' : Table) (rep : CleanReport)
    (h : clean_customer_data t = some (t', rep)) :
    "full_name" ∈ t.cols ∧
    t' = { cols := t.cols, rows := pipelineRows t.cols t.rows } ∧
    rep = { rows_before := t.rows.length,
            rows_after := (pipelineRows t.cols t.rows).length } := by
  rw [clean_customer_data] at h
  by_cases hf : "full_name" ∈ t.cols
  · rw [if_pos hf] at h
    have h' := Option.some.inj h
    exact ⟨hf, (congrArg Prod.fst h').symm, (congrArg Prod.snd h').symm⟩
  · rw [if_neg hf] at h
    cases h

/-! ## Claim theorems -/

/-- C1: the claim says each stage whose column is absent is a no-op and the
pipeline never fails on a missing schema column, in particular succeeding
without `full_name`.  The code violates this: source line 12 indexes
`df["full_name"]` with no presence guard, so a table lacking `full_name`
raises `KeyError` (modelled as `none`) instead of passing through. -/
theorem c1_missing_fullname_raises (t : Table)
    (h : "full_name" ∉ t.cols) : clean_customer_data t = none := by
  rw [clean_customer_data, if_neg h]

/-- Witness for C1: a concrete table without a `full_name` column makes
`clean_customer_data` fail. -/
theorem c1_missing_fullname_raises_witness :
    clean_customer_data
      { cols := ["location", "age"],
        rows := [[("location", Cell.str "Pune"), ("age", Cell.num 30)]] } =
      none :=
  c1_missing_fullname_raises _ (by decide)

/-- C5: for every successful run, `rows_before` is the raw input row count,
`rows_after` is the cleaned table's row count, and no stage ever adds a
row, so `rows_after ≤ rows_before`. -/
theorem c5_report_counts (t t' : Table) (rep : CleanReport)
    (h : clean_customer_data t = some (t', rep)) :
    rep.rows_before = t.rows.length ∧ rep.rows_after = t'.rows.length ∧
      rep.rows_after ≤ rep.rows_before := by
  rcases clean_success_facts t t' rep h with ⟨_, htab, hrep⟩
  rw [htab, hrep]
  exact ⟨rfl, rfl, pipelineRows_length_le _ _⟩

/-- Witness for C5 at a concrete dirty table (one blank name dropped). -/
theorem c5_report_counts_witness :
    (CleanReport.mk 2 1).rows_before =
      (Table.mk ["full_name"] [[("full_name", Cell.str "  ")],
        [("full_name", Cell.str "Asha")]]).rows.length ∧
    (CleanReport.mk 2 1).rows_after =
      (Table.mk ["full_name"] [[("full_name", Cell.str "Asha")]]).rows.length ∧
    (CleanReport.mk 2 1).rows_after ≤ (CleanReport.mk 2 1).rows_before :=
  c5_report_counts
    (Table.mk ["full_name"] [[("full_name", Cell.str "  ")],
      [("full_name", Cell.str "Asha")]])
    (Table.mk ["full_name"] [[("full_name", Cell.str "Asha")]])
    (CleanReport.mk 2 1) (by decide)

/-- C3 counterexample: the claim says rows whose email is null are never
deduplicated against each other (two null-email rows both survive).  On the
code, `drop_duplicates` treats NaN keys as equal: of two rows with null
emails only the first survives (`rows_after = 1`, not 2). -/
theorem c3_counterexample :
    clean_customer_data
      { cols := ["full_name", "email_address"],
        rows := [[("full_name", Cell.str "Asha"), ("email_address", Cell.null)],
                 [("full_name", Cell.str "Vikram"), ("email_address", Cell.null)]] } =
    some ({ cols := ["full_name", "email_address"],
            rows := [[("full_name", Cell.str "Asha"),
                      ("email_address", Cell.null)]] },
          { rows_before := 2, rows_after := 1 }) := by decide

/-- C3 (amended): the dedup stage keeps, among ALL records — null and blank
emails included, since `drop_duplicates` compares NaN keys as equal — exactly
the first occurrence (in original row order) of each distinct email value:
its output is an order-preserving subsequence, its email values are pairwise
distinct, and for every email value the first surviving bearer is the first
bearer in the input. -/
theorem c3_dedup_first_occurrence (rows : List Row) :
    (dedupRows [] rows).Sublist rows ∧
    ((dedupRows [] rows).map emailOf).Nodup ∧
    ∀ v : Cell, (dedupRows [] rows).find? (fun r => emailOf r == v) =
      rows.find? (fun r => emailOf r == v) :=
  ⟨dedupRows_sublist [] rows, (dedupRows_nodup [] rows).1,
   fun v => dedupRows_find [] rows v (List.not_mem_nil v)⟩

/-- C8 counterexample: the claim says only dash-separated
4-digit-2-digit-2-digit values survive the date filter.  On the code,
`pd.to_datetime` also parses other formats: the slash-separated value
`"2024/01/15"` survives yet does not match the schema's dash pattern. -/
theorem c8_counterexample :
    clean_customer_data
      { cols := ["full_name", "date_joined"],
        rows := [[("full_name", Cell.str "Asha"),
                  ("date_joined", Cell.str "2024/01/15")]] } =
    some ({ cols := ["full_name", "date_joined"],
            rows := [[("full_name", Cell.str "Asha"),
                      ("date_joined", Cell.str "2024/01/15")]] },
          { rows_before := 1, rows_after := 1 }) ∧
    matchesDatePattern "2024/01/15" = false := by decide

/-- C8 (amended): when the `date_joined` column is present, every surviving
value parses as a real calendar date (rows whose value fails to parse are
removed), but the parser is not restricted to the dash-separated pattern —
other formats it understands, such as slash-separated dates, survive too. -/
theorem c8_surviving_dates_parse (t t' : Table) (rep : CleanReport)
    (h : clean_customer_data t = some (t', rep))
    (hd : "date_joined" ∈ t.cols) :
    ∀ r ∈ t'.rows, dateParsesB (getCell r "date_joined") = true := by
  rcases clean_success_facts t t' rep h with ⟨hfn, htab, _⟩
  intro r hr
  rw [htab] at hr
  exact (pipelineRows_mem_inv t.cols t.rows hfn r hr).2.2.2.2.2 hd

/-- Witness for C8 (amended) at a concrete table: the surviving date
parses. -/
theorem c8_surviving_dates_parse_witness :
    dateParsesB (getCell [("full_name", Cell.str "Asha"),
      ("date_joined", Cell.str "2024-02-29")] "date_joined") = true :=
  c8_surviving_dates_parse
    (Table.mk ["full_name", "date_joined"]
      [[("full_name", Cell.str "Asha"),
        ("date_joined", Cell.str "2024-02-29")]])
    (Table.mk ["full_name", "date_joined"]
      [[("full_name", Cell.str "Asha"),
        ("date_joined", Cell.str "2024-02-29")]])
    (CleanReport.mk 1 1) (by decide) (by decide)
    [("full_name", Cell.str "Asha"), ("date_joined", Cell.str "2024-02-29")]
    (by simp)

/-- Unpacking the name invariant. -/
theorem nameOk_exists (r : Row) (h : nameOkB r = true) :
    ∃ s, getCell r "full_name" = Cell.str s ∧ pyStrip s = s ∧ s ≠ "" := by
  rw [nameOkB] at h
  cases hv : getCell r "full_name" with
  | null => rw [hv] at h; simp at h
  | num q => rw [hv] at h; simp at h
  | str s =>
      rw [hv] at h
      simp only [Bool.and_eq_true, beq_iff_eq, Bool.not_eq_true',
        beq_eq_false_iff_ne, ne_eq] at h
      exact ⟨s, rfl, h.1, h.2⟩

/-- The row transform preserves the key list. -/
theorem keys_transformRow (cols : List String) (r : Row) :
    (transformRow cols r).map Prod.fst = r.map Prod.fst := by
  rw [transformRow]
  split <;> split <;> split <;> simp only [keys_setCell]

/-- C7: every row of the cleaned table has a non-null, trimmed, nonempty
name; every location value (when the column is present, for a well-formed
input) is a string equal to its trimmed form; every present age lies in
[0, 120]; and no present (non-null, non-blank) email lacks "@". -/
theorem c7_cleaned_invariants (t t' : Table) (rep : CleanReport)
    (hwf : WellFormedB t = true)
    (h : clean_customer_data t = some (t', rep)) :
    ∀ r ∈ t'.rows,
      (∃ s, getCell r "full_name" = Cell.str s ∧ pyStrip s = s ∧ s ≠ "") ∧
      ("location" ∈ t.cols →
        ∃ s, getCell r "location" = Cell.str s ∧ pyStrip s = s) ∧
      ("age" ∈ t.cols → agePassB (getCell r "age") = true) ∧
      ("email_address" ∈ t.cols →
        emailBadB (getCell r "email_address") = false) := by
  rcases clean_success_facts t t' rep h with ⟨hfn, htab, _⟩
  intro r hr
  rw [htab] at hr
  have hinv := pipelineRows_mem_inv t.cols t.rows hfn r hr
  refine ⟨nameOk_exists r hinv.1, ?_, fun ha => (hinv.2.2.2.1 ha).2,
    hinv.2.2.2.2.1⟩
  intro hloc
  rcases pipelineRows_mem t.cols t.rows r hr with ⟨r0, hr0, hform, _⟩
  have hkeys : r.map Prod.fst = t.cols := by
    rw [hform, keys_transformRow]
    exact wellFormed_keys t hwf r0 hr0
  have hcol : hasCol "location" r = true := by
    rw [hasCol_iff_mem_keys, hkeys]
    exact hloc
  exact getCell_of_trimmedPairs "location" r hcol (hinv.2.2.1 hloc)

/-- Witness for C7 at a concrete dirty table (untrimmed name, null
location, string age, blank email). -/
theorem c7_cleaned_invariants_witness :
    ((∃ s, getCell [("full_name", Cell.str "Rahul Kumar"),
        ("location", Cell.str "nan"), ("age", Cell.num 30),
        ("email_address", Cell.str "")] "full_name" = Cell.str s ∧
        pyStrip s = s ∧ s ≠ "") ∧
      ("location" ∈ (Table.mk
          ["full_name", "location", "age", "email_address"]
          [[("full_name", Cell.str "  Rahul Kumar  "),
            ("location", Cell.null), ("age", Cell.str "30"),
            ("email_address", Cell.str "")]]).cols →
        ∃ s, getCell [("full_name", Cell.str "Rahul Kumar"),
          ("location", Cell.str "nan"), ("age", Cell.num 30),
          ("email_address", Cell.str "")] "location" = Cell.str s ∧
          pyStrip s = s) ∧
      ("age" ∈ (Table.mk ["full_name", "location", "age", "email_address"]
          [[("full_name", Cell.str "  Rahul Kumar  "),
            ("location", Cell.null), ("age", Cell.str "30"),
            ("email_address", Cell.str "")]]).cols →
        agePassB (getCell [("full_name", Cell.str "Rahul Kumar"),
          ("location", Cell.str "nan"), ("age", Cell.num 30),
          ("email_address", Cell.str "")] "age") = true) ∧
      ("email_address" ∈ (Table.mk
          ["full_name", "location", "age", "email_address"]
          [[("full_name", Cell.str "  Rahul Kumar  "),
            ("location", Cell.null), ("age", Cell.str "30"),
            ("email_address", Cell.str "")]]).cols →
        emailBadB (getCell [("full_name", Cell.str "Rahul Kumar"),
          ("location", Cell.str "nan"), ("age", Cell.num 30),
          ("email_address", Cell.str "")] "email_address") = false)) :=
  c7_cleaned_invariants
    (Table.mk ["full_name", "location", "age", "email_address"]
      [[("full_name", Cell.str "  Rahul Kumar  "), ("location", Cell.null),
        ("age", Cell.str "30"), ("email_address", Cell.str "")]])
    (Table.mk ["full_name", "location", "age", "email_address"]
      [[("full_name", Cell.str "Rahul Kumar"), ("location", Cell.str "nan"),
        ("age", Cell.num 30), ("email_address", Cell.str "")]])
    (CleanReport.mk 1 1) (by decide) (by decide)
    [("full_name", Cell.str "Rahul Kumar"), ("location", Cell.str "nan"),
     ("age", Cell.num 30), ("email_address", Cell.str "")]
    (by simp)

/-- C10: when the location column is present (well-formed input), every
cleaned row originates from an input row via the pipeline's row transform,
and if that input row's location was null, the cleaned row's location is
the literal string "nan" — the normalization stage converts null locations
to the text "nan" rather than dropping the row or keeping the null. -/
theorem c10_null_location_nan (t t' : Table) (rep : CleanReport)
    (hwf : WellFormedB t = true)
    (h : clean_customer_data t = some (t', rep))
    (hloc : "location" ∈ t.cols) :
    ∀ r' ∈ t'.rows, ∃ r ∈ t.rows, r' = transformRow t.cols r ∧
      (getCell r "location" = Cell.null →
        getCell r' "location" = Cell.str "nan") := by
  rcases clean_success_facts t t' rep h with ⟨hfn, htab, _⟩
  intro r' hr'
  rw [htab] at hr'
  rcases pipelineRows_mem t.cols t.rows r' hr' with ⟨r, hr, hform, _⟩
  refine ⟨r, hr, hform, fun hnull => ?_⟩
  have hkeys : ((setCell "full_name"
      (fun v => .str (pyStrip (pyStr v))) r).map Prod.fst) = t.cols := by
    rw [keys_setCell]
    exact wellFormed_keys t hwf r hr
  have hcol : hasCol "location"
      (setCell "full_name" (fun v => .str (pyStrip (pyStr v))) r) = true := by
    rw [hasCol_iff_mem_keys, hkeys]
    exact hloc
  rw [hform, transformRow]
  simp only [if_pos hfn, if_pos hloc]
  have hageskip : ∀ (b : Row),
      getCell (if "age" ∈ t.cols then setCell "age" toNumeric b else b)
        "location" = getCell b "location" := by
    intro b
    split
    · exact getCell_setCell_ne _ _ _ _ (by decide)
    · rfl
  rw [hageskip, getCell_setCell_self _ _ _ hcol,
    getCell_setCell_ne _ _ _ _ (by decide), hnull]
  rfl

/-- Witness for C10: a concrete row with a null location survives and its
location in the output is the string "nan". -/
theorem c10_null_location_nan_witness :
    ∃ r ∈ (Table.mk ["full_name", "location"]
      [[("full_name", Cell.str "Ravi"), ("location", Cell.null)]]).rows,
      [("full_name", Cell.str "Ravi"), ("location", Cell.str "nan")] =
        transformRow (Table.mk ["full_name", "location"]
          [[("full_name", Cell.str "Ravi"), ("location", Cell.null)]]).cols r ∧
      (getCell r "location" = Cell.null →
        getCell [("full_name", Cell.str "Ravi"),
          ("location", Cell.str "nan")] "location" = Cell.str "nan") :=
  c10_null_location_nan
    (Table.mk ["full_name", "location"]
      [[("full_name", Cell.str "Ravi"), ("location", Cell.null)]])
    (Table.mk ["full_name", "location"]
      [[("full_name", Cell.str "Ravi"), ("location", Cell.str "nan")]])
    (CleanReport.mk 1 1) (by decide) (by decide) (by decide)
    [("full_name", Cell.str "Ravi"), ("location", Cell.str "nan")]
    (by simp)

/-- C9: pandera first checks that every declared column is present, then
runs the value checks in declaration order.  On a table carrying all
schema columns, whose `full_name` and `email_address` values conform, a
present age outside [0, 120] — e.g. -5 — makes `validate_customers` raise
a `SchemaViolation` naming the `age` column rather than return. -/
theorem c9_age_violation (t : Table) (q : Rat) (ρ : Row)
    (hpres : checkPresence customer_schema t = none)
    (hfn : t.rows.all
      (fun r => cellPassesB fullNameCol (getCell r fullNameCol.cname)) = true)
    (hem : t.rows.all
      (fun r => cellPassesB emailCol (getCell r emailCol.cname)) = true)
    (hρ : ρ ∈ t.rows) (hval : getCell ρ "age" = Cell.num q)
    (hout : q < 0 ∨ 120 < q) :
    validate_customers t = Except.error ⟨"age"⟩ := by
  have hcheck : checkAgeRange (Cell.num q) = false := by
    rcases hout with hlt | hgt
    · simp [checkAgeRange, not_le.mpr hlt]
    · simp [checkAgeRange, not_le.mpr hgt]
  have hfail : t.rows.all
      (fun r => cellPassesB ageCol (getCell r ageCol.cname)) = false := by
    apply Bool.eq_false_iff.mpr
    intro hall
    have hcell : cellPassesB ageCol (getCell ρ ageCol.cname) = true :=
      List.all_eq_true.mp hall ρ hρ
    rw [show ageCol.cname = "age" from rfl, hval] at hcell
    rw [show cellPassesB ageCol (Cell.num q)
        = (typeOkB PaType.pint (Cell.num q) && checkAgeRange (Cell.num q))
      from rfl, hcheck, Bool.and_false] at hcell
    exact Bool.false_ne_true hcell
  have hvals : checkValues customer_schema t = some ⟨"age"⟩ := by
    rw [customer_schema, checkValues, if_pos hfn, checkValues, if_pos hem,
      checkValues, if_neg (by rw [hfail]; exact Bool.false_ne_true)]
    rfl
  rw [validate_customers, validateCols, hpres, hvals]

/-- Witness for C9: the validator rejects a concrete table carrying every
schema column whose only row has age -5, naming the age column. -/
theorem c9_age_violation_witness :
    validate_customers
      (Table.mk schemaCols
        [[("full_name", Cell.str "Dev"),
          ("email_address", Cell.str "dev@x.in"),
          ("age", Cell.num (-5)), ("gender", Cell.str "M"),
          ("phone_number", Cell.str "123"), ("location", Cell.str "Pune"),
          ("country", Cell.str "India"),
          ("date_joined", Cell.str "2024-01-15"),
          ("lead_source", Cell.str "web"), ("utm_campaign", Cell.null),
          ("utm_medium", Cell.null), ("notes", Cell.null),
          ("is_subscribed", Cell.str "yes")]]) = Except.error ⟨"age"⟩ :=
  c9_age_violation _ (-5)
    [("full_name", Cell.str "Dev"), ("email_address", Cell.str "dev@x.in"),
     ("age", Cell.num (-5)), ("gender", Cell.str "M"),
     ("phone_number", Cell.str "123"), ("location", Cell.str "Pune"),
     ("country", Cell.str "India"), ("date_joined", Cell.str "2024-01-15"),
     ("lead_source", Cell.str "web"), ("utm_campaign", Cell.null),
     ("utm_medium", Cell.null), ("notes", Cell.null),
     ("is_subscribed", Cell.str "yes")]
    (by decide) (by decide) (by decide) (by simp) rfl
    (Or.inl (by norm_num))

/-- C6: the pipeline is idempotent — cleaning the cleaned table returns it
identically, with `rows_after` unchanged on the second pass. -/
theorem c6_idempotent (t t' : Table) (rep : CleanReport)
    (h : clean_customer_data t = some (t', rep)) :
    clean_customer_data t' =
      some (t', { rows_before := rep.rows_after,
                  rows_after := rep.rows_after }) := by
  rcases clean_success_facts t t' rep h with ⟨hfn, htab, hrep⟩
  have hcols : t'.cols = t.cols := by rw [htab]
  have hrows : t'.rows = pipelineRows t.cols t.rows := by rw [htab]
  have hfn' : "full_name" ∈ t'.cols := by rw [hcols]; exact hfn
  rw [clean_customer_data, if_pos hfn']
  have hidem : pipelineRows t'.cols t'.rows = t'.rows := by
    rw [hcols, hrows]
    exact pipelineRows_idem t.cols t.rows hfn
  rw [hidem]
  have hra : rep.rows_after = t'.rows.length := by
    rw [hrep, hrows]
  rw [hra]

/-- Witness for C6: a second run on a concrete cleaned table returns it
unchanged. -/
theorem c6_idempotent_witness :
    clean_customer_data
      (Table.mk ["full_name"] [[("full_name", Cell.str "Bob")]]) =
    some (Table.mk ["full_name"] [[("full_name", Cell.str "Bob")]],
      { rows_before := (CleanReport.mk 1 1).rows_after,
        rows_after := (CleanReport.mk 1 1).rows_after }) :=
  c6_idempotent
    (Table.mk ["full_name"] [[("full_name", Cell.str "  Bob  ")]])
    (Table.mk ["full_name"] [[("full_name", Cell.str "Bob")]])
    (CleanReport.mk 1 1) (by decide)

/-- C4 counterexample: an input containing a violation from the claim's
list (an untrimmed name, invariant 2 of spec section 3) is repaired in
place, not removed, so `rows_after` equals `rows_before` instead of
strictly decreasing. -/
theorem c4_counterexample :
    clean_customer_data
      { cols := ["full_name"],
        rows := [[("full_name", Cell.str "  Bob  ")]] } =
    some ({ cols := ["full_name"],
            rows := [[("full_name", Cell.str "Bob")]] },
          { rows_before := 1, rows_after := 1 }) ∧
    pyStrip "  Bob  " ≠ "  Bob  " ∧ ¬((1 : Nat) < 1) := by decide

/-- C4 (amended): `rows_after` strictly decreases whenever the input
contains a removal-class violation — a null/blank name, a present age
outside [0, 120] after coercion, a filled email without "@", two rows
sharing the same email value (nulls comparing equal), or a `date_joined`
value that fails to parse — each with its column present.  Whitespace
violations (untrimmed name or location) are repaired in place and do not
shrink the row count. -/
theorem c4_removal_violations_shrink (t t' : Table) (rep : CleanReport)
    (h : clean_customer_data t = some (t', rep))
    (hviol :
      (∃ r ∈ t.rows, missingNameB (getCell r "full_name") = true) ∨
      ("age" ∈ t.cols ∧ ∃ r ∈ t.rows,
        agePassB (toNumeric (getCell r "age")) = false) ∨
      ("email_address" ∈ t.cols ∧ ∃ r ∈ t.rows,
        emailBadB (getCell r "email_address") = true) ∨
      ("email_address" ∈ t.cols ∧ ¬(t.rows.map emailOf).Nodup) ∨
      ("date_joined" ∈ t.cols ∧ ∃ r ∈ t.rows,
        dateParsesB (getCell r "date_joined") = false)) :
    rep.rows_after < rep.rows_before := by
  rcases clean_success_facts t t' rep h with ⟨hfn, _, hrep⟩
  rw [hrep]
  show (pipelineRows t.cols t.rows).length < t.rows.length
  by_contra hge
  have hle := pipelineRows_length_le t.cols t.rows
  have heq : (pipelineRows t.cols t.rows).length = t.rows.length := by omega
  rcases pipelineRows_length_eq_facts t.cols t.rows hfn heq with
    ⟨f1, f2, f3, f4, f5⟩
  rcases hviol with ⟨r, hr, hbad⟩ | ⟨ha, r, hr, hbad⟩ | ⟨he, r, hr, hbad⟩ |
    ⟨he, hnd⟩ | ⟨hd, r, hr, hbad⟩
  · rw [f1 r hr] at hbad
    exact absurd hbad (by decide)
  · rw [f2 ha r hr] at hbad
    exact absurd hbad (by decide)
  · rw [f3 he r hr] at hbad
    exact absurd hbad (by decide)
  · exact hnd (f4 he)
  · rw [f5 hd r hr] at hbad
    exact absurd hbad (by decide)

/-- Witness for C4 (amended): a concrete input with a null name shrinks
strictly. -/
theorem c4_removal_violations_shrink_witness :
    (CleanReport.mk 2 1).rows_after < (CleanReport.mk 2 1).rows_before :=
  c4_removal_violations_shrink
    (Table.mk ["full_name"]
      [[("full_name", Cell.null)], [("full_name", Cell.str "Asha")]])
    (Table.mk ["full_name"] [[("full_name", Cell.str "Asha")]])
    (CleanReport.mk 2 1) (by decide)
    (Or.inl ⟨[("full_name", Cell.null)], by simp, by decide⟩)

/-- C2 counterexample: a table the validator accepts (the schema has no
uniqueness check) in which two rows share an email; the cleaning pipeline
drops the duplicate, so the row count changes from 2 to 1 and the table is
not a fixed point. -/
theorem c2_counterexample :
    validate_customers dupEmailTable = Except.ok dupEmailTable ∧
    clean_customer_data dupEmailTable =
      some ({ cols := schemaCols,
              rows := [validRow "Asha" "sara@gmail.com"] },
            { rows_before := 2, rows_after := 1 }) ∧
    (2 : Nat) ≠ 1 :=
  ⟨rfl, by decide, by decide⟩

/-- C2 (amended): a validator-accepted table is a fixed point of the
cleaning pipeline — returned identically with `rows_after = rows_before`
and accepted again — provided additionally that every name is non-null,
trimmed and nonempty, every location is trimmed, the email values are
pairwise distinct (nulls comparing equal), and every `date_joined` value
actually parses as a calendar date.  The validator alone does not rule out
null names, duplicate emails, or pattern-valid but unparseable dates such
as "9999-99-99", each of which the pipeline removes. -/
theorem c2_validator_fixed_point (t : Table)
    (hacc : validate_customers t = Except.ok t)
    (hwf : WellFormedB t = true)
    (hcols : t.cols.Nodup)
    (hname : ∀ r ∈ t.rows, ∃ s, getCell r "full_name" = Cell.str s ∧
      pyStrip s = s ∧ s ≠ "")
    (hloct : ∀ r ∈ t.rows, ∃ s, getCell r "location" = Cell.str s ∧
      pyStrip s = s)
    (hnodup : (t.rows.map emailOf).Nodup)
    (hdate : ∀ r ∈ t.rows, dateParsesB (getCell r "date_joined") = true) :
    clean_customer_data t =
      some (t, { rows_before := t.rows.length,
                 rows_after := t.rows.length }) ∧
    validate_customers t = Except.ok t := by
  have haccs := validateCols_ok_accepts customer_schema t t hacc
  have hfnacc := haccs fullNameCol (List.Mem.head _)
  have hemacc := haccs emailCol (List.Mem.tail _ (List.Mem.head _))
  have hagacc := haccs ageCol
    (List.Mem.tail _ (List.Mem.tail _ (List.Mem.head _)))
  have hfn : "full_name" ∈ t.cols := (colAcceptsB_facts _ _ hfnacc).1
  have keysfact : ∀ r ∈ t.rows, (r.map Prod.fst).Nodup := fun r hr => by
    rw [wellFormed_keys t hwf r hr]
    exact hcols
  have hpipe : pipelineRows t.cols t.rows = t.rows := by
    refine pipelineRows_eq_self t.cols t.rows hfn ?_ ?_ ?_ ?_ ?_ ?_ ?_
    · intro r hr
      rcases hname r hr with ⟨s, h1, h2, h3⟩
      rw [nameOkB, h1]
      simp [h2, h3]
    · intro r hr
      exact trimmedPairs_of_getCell _ _ (keysfact r hr)
        ((hname r hr).imp (fun s hs => ⟨hs.1, hs.2.1⟩))
    · intro _ r hr
      exact trimmedPairs_of_getCell _ _ (keysfact r hr) (hloct r hr)
    · intro _ r hr
      have hcell := (colAcceptsB_facts _ _ hagacc).2 r hr
      rw [show ageCol.cname = "age" from rfl] at hcell
      cases hv : getCell r "age" with
      | null =>
          refine ⟨numericPairs_of_getCell _ _ (keysfact r hr)
            (fun s hs => by rw [hv] at hs; cases hs), ?_⟩
          rfl
      | num q =>
          rw [hv] at hcell
          rw [show cellPassesB ageCol (Cell.num q) =
            (typeOkB PaType.pint (Cell.num q) && checkAgeRange (Cell.num q))
            from rfl, Bool.and_eq_true] at hcell
          refine ⟨numericPairs_of_getCell _ _ (keysfact r hr)
            (fun s hs => by rw [hv] at hs; cases hs), ?_⟩
          exact hcell.2
      | str s =>
          rw [hv] at hcell
          exact absurd hcell (by simp [cellPassesB, typeOkB, ageCol])
    · intro _ r hr
      have hcell := (colAcceptsB_facts _ _ hemacc).2 r hr
      rw [show emailCol.cname = "email_address" from rfl] at hcell
      cases hv : getCell r "email_address" with
      | null => rfl
      | num q =>
          rw [hv] at hcell
          exact absurd hcell (by simp [cellPassesB, typeOkB, emailCol])
      | str s =>
          rw [hv] at hcell
          rw [show cellPassesB emailCol (Cell.str s) =
            (typeOkB PaType.pstr (Cell.str s) && checkContainsAt (Cell.str s))
            from rfl, Bool.and_eq_true] at hcell
          have hat : hasAtB (Cell.str s) = true := hcell.2
          rw [emailBadB, hat]
          simp
    · exact fun _ => hnodup
    · exact fun _ r hr => hdate r hr
  rw [clean_customer_data, if_pos hfn, hpipe]
  exact ⟨rfl, hacc⟩

/-- Witness for C2 (amended): a concrete clean valid table is a fixed
point and is accepted again. -/
theorem c2_validator_fixed_point_witness :
    (clean_customer_data validSingletonTable =
      some (validSingletonTable,
        { rows_before := validSingletonTable.rows.length,
          rows_after := validSingletonTable.rows.length }) ∧
     validate_customers validSingletonTable =
       Except.ok validSingletonTable) :=
  c2_validator_fixed_point validSingletonTable rfl (by decide) (by decide)
    (fun r hr => by
      simp only [validSingletonTable, List.mem_singleton] at hr
      subst hr
      exact ⟨"Asha", rfl, by decide, by decide⟩)
    (fun r hr => by
      simp only [validSingletonTable, List.mem_singleton] at hr
      subst hr
      exact ⟨"Pune", rfl, by decide⟩)
    (by decide)
    (fun r hr => by
      simp only [validSingletonTable, List.mem_singleton] at hr
      subst hr
      decide)
